import Mathlib

/-!
# frp-otp: access ledger, knock flow and protocol dispatcher

A shallow embedding of `config.go` and `server.go`.

Conventions of the embedding.

* Go `int64` values are integers; every arithmetic operation the source
  performs on them (`+`, `-`, `*`) is taken modulo `2^64` in two's
  complement (`wrap64`).  Comparisons are the ordinary order on the
  representatives.
* A Go `map[string]int64` is a finite partial function `String → Option Int`.
  A nil map reads as the empty map, and `AddAllow`/`AddBlock` allocate it
  before writing, so nil and empty are not distinguished.
* `time.Now().Unix()` is an explicit parameter `now`.  The readings made
  during one call are taken in the same second.  `IsClockReading` is the range
  of values the call can return.
* The read/write lock of a channel is not modelled: every operation is one
  atomic step on the channel state.
* Library functions (`net.SplitHostPort`, `totp.ValidateCustom`,
  `json.Unmarshal`) are parameters of the definitions that call them.
-/

namespace FrpOtp

/-! ## 64-bit signed arithmetic -/

/-- Two's complement reduction of an integer to the `int64` range. -/
def wrap64 (x : Int) : Int :=
  (x + 9223372036854775808) % 18446744073709551616 - 9223372036854775808

/-- Go `a + b` on `int64`. -/
def add64 (a b : Int) : Int := wrap64 (a + b)

/-- Go `a - b` on `int64`. -/
def sub64 (a b : Int) : Int := wrap64 (a - b)

/-- Go `a * b` on `int64`. -/
def mul64 (a b : Int) : Int := wrap64 (a * b)

/-- The values an `int64` can hold. -/
def InInt64 (x : Int) : Prop :=
  -9223372036854775808 ≤ x ∧ x ≤ 9223372036854775807

instance (x : Int) : Decidable (InInt64 x) := by
  unfold InInt64; infer_instance

/-- A value `time.Now().Unix()` can return: the seconds since the epoch on
the clock of the running system, which are not negative and stay far below
the `int64` limit (here: at most `2^62`). -/
def IsClockReading (now : Int) : Prop :=
  0 ≤ now ∧ now ≤ 4611686018427387904

instance (now : Int) : Decidable (IsClockReading now) := by
  unfold IsClockReading; infer_instance

/-! ## Data model (`config.go`) -/

/-- A Go `map[string]int64`. -/
abbrev TsMap := String → Option Int

/-- The empty (or nil) map. -/
def TsMap.empty : TsMap := fun _ => none

/-- Go `m[k] = v`. -/
def TsMap.set (m : TsMap) (k : String) (v : Int) : TsMap :=
  fun x => if x = k then some v else m x

/-- Channel configuration and ledger: the fields of `type Channel struct`
without the lock and the notify list, which no modelled function reads. -/
structure Channel where
  Status : Bool
  Model : String
  Secret : String
  Issuer : String
  Blacklist : List String
  Whitelist : List String
  Allow : TsMap
  Block : TsMap

/-- The fields of `type Config struct`. -/
structure Config where
  Enforce : Bool
  Domain : String
  BindAddress : String
  Channel : String → Option Channel

/-- The loop `for _, v := range list { if v == ip { found = true; break } }`:
the value of `found` after it, started from `false`. -/
def inList : List String → String → Bool
  | [], _ => false
  | v :: rest, ip => if v = ip then true else inList rest ip

/-- `Channel.IsAllow` at clock reading `now`. -/
def Channel.IsAllow (c : Channel) (ip : String) (now : Int) : Bool :=
  let allow := inList c.Whitelist ip
  let block := if !allow then inList c.Blacklist ip else false
  let block :=
    if !allow && !block then
      match c.Block ip with
      | some ts => if now < ts then true else block
      | none => block
    else block
  let allow :=
    if !allow && !block then
      match c.Allow ip with
      | some ts => if now < ts then true else allow
      | none => allow
    else allow
  allow

/-- `Channel.IsBlock` at clock reading `now`.  The first component is the
variable `ts`: zero unless the block map was consulted and had an entry. -/
def Channel.IsBlock (c : Channel) (ip : String) (now : Int) : Int × Bool :=
  let block := inList c.Blacklist ip
  if !block then
    match c.Block ip with
    | some ts => if add64 now 60 < ts then (ts, true) else (ts, block)
    | none => (0, block)
  else (0, block)

/-- `Channel.AddAllow`. -/
def Channel.AddAllow (c : Channel) (ip : String) (ts : Int) : Channel :=
  { c with Allow := c.Allow.set ip ts }

/-- `Channel.AddBlock`. -/
def Channel.AddBlock (c : Channel) (ip : String) (ts step : Int) : Channel :=
  match c.Block ip with
  | some t =>
    if t > ts then
      if sub64 t ts < 60 then
        { c with Block := c.Block.set ip (add64 t step) }
      else
        { c with Block := c.Block.set ip (add64 t (mul64 step 30)) }
    else
      { c with Block := c.Block.set ip (add64 ts step) }
  | none => { c with Block := c.Block.set ip (add64 ts step) }

/-! ## Knock flow (`server.go`) -/

/-- `Channel.Check`: the library's TOTP validation, a parameter, applied to
the submitted code, the channel secret and the clock. -/
def Channel.Check (validate : String → String → Int → Bool) (c : Channel)
    (code : String) (now : Int) : Bool :=
  validate code c.Secret now

/-- The page `WebKnock` writes, up to its rendering: `autoBlocked ip ts` is
the message naming the unblock time `ts`, `blacklisted ip` the message asking
to contact the administrator. -/
inductive KnockPage
  | autoBlocked (ip : String) (ts : Int)
  | blacklisted (ip : String)
  | enterCode
  | verified
  | wrongCode
  | forbidden
  | ok

/-- What one call of `WebKnock` does: the HTTP status, the page, and the
registry afterwards. -/
structure KnockResult where
  status : Nat
  page : KnockPage
  cfg : Config

/-- The registry after the channel stored under `name` has been mutated to
`c` through its pointer. -/
def Config.setChannel (cfg : Config) (name : String) (c : FrpOtp.Channel) :
    Config :=
  { cfg with Channel := fun n => if n = name then some c else cfg.Channel n }

/-- `Server.WebKnock`.  `hostOf` is the host part returned by
`net.SplitHostPort` (the empty string on error); `channel`, `remoteAddr` and
`code` are the query parameter, `r.RemoteAddr` and the form value. -/
def WebKnock (hostOf : String → String)
    (validate : String → String → Int → Bool) (cfg : Config)
    (channel remoteAddr code : String) (now : Int) : KnockResult :=
  match cfg.Channel channel with
  | some c =>
    let ip := hostOf remoteAddr
    match c.IsBlock ip now with
    | (ts, true) =>
      if ts > 0 then
        { status := 403, page := .autoBlocked ip ts,
          cfg := cfg.setChannel channel (c.AddBlock ip now 10) }
      else
        { status := 403, page := .blacklisted ip, cfg := cfg }
    | (_, false) =>
      if code = "" then
        { status := 200, page := .enterCode, cfg := cfg }
      else if c.Check validate code now then
        { status := 200, page := .verified,
          cfg := cfg.setChannel channel (c.AddAllow ip (add64 now 300)) }
      else
        { status := 200, page := .wrongCode,
          cfg := cfg.setChannel channel (c.AddBlock ip now 10) }
  | none =>
    if cfg.Enforce then { status := 403, page := .forbidden, cfg := cfg }
    else { status := 200, page := .ok, cfg := cfg }

/-! ## Protocol dispatcher (`server.go`) -/

/-- The fields of `plugin.NewUserConnContent`; the user record is kept as
one value. -/
structure NewUserConnContent where
  User : String
  ProxyName : String
  ProxyType : String
  RemoteAddr : String
  deriving DecidableEq

/-- The fields of `plugin.NewProxyContent` the handlers can see; the user
record and the proxy options are kept as one value each. -/
structure NewProxyContent where
  User : String
  ProxyName : String
  Options : String
  deriving DecidableEq

/-- The dynamic value behind `Content interface{}`: one constructor per
concrete content type. -/
inductive Content
  | Ping (raw : String)
  | Login (raw : String)
  | NewUserConn (c : NewUserConnContent)
  | NewProxy (c : NewProxyContent)
  | CloseProxy (raw : String)
  | NewWorkConn (raw : String)
  deriving DecidableEq

/-- The fields of `plugin.Request`; `Content` is `none` for a nil interface. -/
structure Request where
  Version : String
  Op : String
  Content : Option Content
  deriving DecidableEq

/-- The fields of `plugin.Response`. -/
structure Response where
  Reject : Bool
  RejectReason : String
  Unchange : Bool
  Content : Option Content
  deriving DecidableEq

/-- The zero value `new(plugin.Response)`. -/
def Response.new : Response :=
  { Reject := false, RejectReason := "", Unchange := false, Content := none }

/-- `Server.handleNewUserConnect`.  `Except.error` is the run-time panic of
the type assertion `req.Content.(*plugin.NewUserConnContent)`. -/
def handleNewUserConnect (hostOf : String → String) (cfg : Config) (now : Int)
    (req : Request) : Except String Response :=
  match req.Content with
  | some (.NewUserConn content) =>
    match cfg.Channel content.ProxyName with
    | some c =>
      if c.Status then
        if c.Model = "bypass" then
          .ok { Response.new with
                Unchange := true, Content := some (.NewUserConn content) }
        else
          let ip := hostOf content.RemoteAddr
          if c.IsAllow ip now then
            .ok { Response.new with
                  Unchange := true, Content := some (.NewUserConn content) }
          else
            .ok { Response.new with
                  Reject := true,
                  RejectReason := "user ip not in allow Whitelist" }
      else
        .ok { Response.new with
              Reject := true, RejectReason := "proxy is not enable" }
    | none =>
      if cfg.Enforce then
        .ok { Response.new with
              Reject := true, RejectReason := "proxy is not config" }
      else
        .ok { Response.new with
              Unchange := true, Content := some (.NewUserConn content) }
  | _ => .error "interface conversion: not *plugin.NewUserConnContent"

/-- `Server.handlePing`. -/
def handlePing (_cfg : Config) (_now : Int) (_req : Request) :
    Except String Response :=
  .ok { Response.new with Unchange := true }

/-- `Server.handleLogin`. -/
def handleLogin (_cfg : Config) (_now : Int) (_req : Request) :
    Except String Response :=
  .ok { Response.new with Unchange := true }

/-- `Server.handleNewProxy`.  `Except.error` is the run-time panic of the
type assertion `req.Content.(*plugin.NewProxyContent)`. -/
def handleNewProxy (cfg : Config) (_now : Int) (req : Request) :
    Except String Response :=
  match req.Content with
  | some (.NewProxy content) =>
    match cfg.Channel content.ProxyName with
    | some c =>
      if c.Status then
        .ok { Response.new with
              Unchange := true, Content := some (.NewProxy content) }
      else
        .ok { Response.new with
              Reject := true, RejectReason := "proxy is not enable" }
    | none =>
      if cfg.Enforce then
        .ok { Response.new with
              Reject := true, RejectReason := "proxy is not config" }
      else
        .ok { Response.new with
              Unchange := true, Content := some (.NewProxy content) }
  | _ => .error "interface conversion: not *plugin.NewProxyContent"

/-- `Server.handleCloseProxy`. -/
def handleCloseProxy (_cfg : Config) (_now : Int) (_req : Request) :
    Except String Response :=
  .ok { Response.new with Unchange := true }

/-- `Server.handleNewWorkConnect`. -/
def handleNewWorkConnect (_cfg : Config) (_now : Int) (_req : Request) :
    Except String Response :=
  .ok { Response.new with Unchange := true }

/-- The handler table `s.h` built by `Server.init`, keyed by the operation
names of the plugin package. -/
def handlerFor (hostOf : String → String) (op : String) :
    Option (Config → Int → Request → Except String Response) :=
  if op = "Ping" then some handlePing
  else if op = "Login" then some handleLogin
  else if op = "NewUserConn" then some (handleNewUserConnect hostOf)
  else if op = "NewProxy" then some handleNewProxy
  else if op = "CloseProxy" then some handleCloseProxy
  else if op = "NewWorkConn" then some handleNewWorkConnect
  else none

/-- The content type `parseRequest` allocates for the decode. -/
inductive Schema
  | PingContent
  | LoginContent
  | NewUserConnContent
  | NewProxyContent
  | CloseProxyContent
  | NewWorkConnContent
  deriving DecidableEq

/-- The `switch op` of `parseRequest`: the content type for an operation
name, `none` for the `default` branch. -/
def schemaOf (op : String) : Option Schema :=
  if op = "Ping" then some .PingContent
  else if op = "Login" then some .LoginContent
  else if op = "NewUserConn" then some .NewUserConnContent
  else if op = "NewProxy" then some .NewProxyContent
  else if op = "CloseProxy" then some .CloseProxyContent
  else if op = "NewWorkConn" then some .NewWorkConnContent
  else none

/-- The byte at index `k` of the body. -/
def byteAt (data : List Nat) (k : Nat) : Nat := data.getD k 0

/-- Go `string(data[i:k])`: the bytes from index `i` up to `k`, each byte
kept as one character. -/
def goString (data : List Nat) (i k : Nat) : String :=
  String.mk (((data.drop i).take (k - i)).map Char.ofNat)

/-- The variables of the scanning loop of `parseRequest`. -/
structure ScanState where
  cnt : Nat
  idx : Nat
  findOp : Bool
  op : String
  deriving DecidableEq

/-- The quote test together with the `continue` guard of the loop: index `k`
holds a quote (byte 34) that is not directly preceded by a backslash
(byte 92). -/
def countedQuote (data : List Nat) (k : Nat) : Bool :=
  byteAt data k == 34 && !(decide (k > 0) && byteAt data (k - 1) == 92)

/-- The test on a closing quote at `k` for a string opened at `idx`:
`k-idx == 3` and the two bytes before `k` are `o`/`O` and `p`/`P`. -/
def isOpKey (data : List Nat) (idx k : Nat) : Bool :=
  decide (k - idx = 3) &&
    ((byteAt data (k - 2) == 111 || byteAt data (k - 2) == 79) &&
     (byteAt data (k - 1) == 112 || byteAt data (k - 1) == 80))

/-- One iteration of the loop `for k, v := range data` of `parseRequest`,
at index `k`.  The flag is true when the iteration ends in `break`. -/
def scanStep (data : List Nat) (k : Nat) (st : ScanState) : ScanState × Bool :=
  if countedQuote data k then
    let cnt := st.cnt + 1
    if cnt % 2 = 1 then
      ({ st with cnt := cnt, idx := k }, false)
    else if isOpKey data st.idx k then
      ({ st with cnt := cnt, findOp := true }, false)
    else if st.findOp then
      ({ st with cnt := cnt, op := goString data (st.idx + 1) k }, true)
    else
      ({ st with cnt := cnt }, false)
  else (st, false)

/-- The loop of `parseRequest` over the indices `ks`, in order. -/
def scanLoop (data : List Nat) : List Nat → ScanState → ScanState
  | [], st => st
  | k :: ks, st =>
    match scanStep data k st with
    | (st2, true) => st2
    | (st2, false) => scanLoop data ks st2

/-- The state after the whole loop of `parseRequest` on body `data`. -/
def scanOp (data : List Nat) : ScanState :=
  scanLoop data (List.range data.length)
    { cnt := 0, idx := 0, findOp := false, op := "" }

/-- `Server.parseRequest`: the pair `(req, err)`.  `body` is the result of
`io.ReadAll`; `jsonUnmarshal data schema` is `json.Unmarshal(data, req)` for a
request whose content was allocated with type `schema`: the request as the
decode leaves it, and the decode error if any. -/
def parseRequest (jsonUnmarshal : List Nat → Schema → Request × Option String)
    (body : Except String (List Nat)) : Option Request × Option String :=
  match body with
  | .error e => (none, some e)
  | .ok data =>
    let st := scanOp data
    if st.findOp then
      match schemaOf st.op with
      | some schema =>
        let r := jsonUnmarshal data schema
        (some r.1, r.2)
      | none => (none, some "unknown operation")
    else (none, none)

/-- `Server.HandleRPC`: the response handed to `SendJSON`.  `Except.error`
is a run-time panic: the nil dereference `req.Op` when `parseRequest` returns
neither a request nor an error, or a panic of the selected handler. -/
def HandleRPC (hostOf : String → String)
    (jsonUnmarshal : List Nat → Schema → Request × Option String)
    (cfg : Config) (now : Int) (body : Except String (List Nat)) :
    Except String Response :=
  match parseRequest jsonUnmarshal body with
  | (req, none) =>
    match req with
    | none => .error "invalid memory address or nil pointer dereference"
    | some r =>
      match handlerFor hostOf r.Op with
      | some fn => fn cfg now r
      | none =>
        .ok { Response.new with
              Reject := true, RejectReason := "unknown operation" }
  | (_, some e) =>
    .ok { Response.new with
          Reject := true, RejectReason := "parse request error: " ++ e }

/-! ## String literals of a body, as the scan delimits them -/

/-- The indices of the quotes the scan counts, in increasing order. -/
def quotePositions (data : List Nat) : List Nat :=
  (List.range data.length).filter (countedQuote data)

/-- Consecutive pairs of a list: first with second, third with fourth, and
so on; an unpaired last element is dropped. -/
def pairUp : List Nat → List (Nat × Nat)
  | a :: b :: rest => (a, b) :: pairUp rest
  | _ => []

/-- The closed string literals of a body: each is the pair of the index of
its opening quote and the index of its closing quote. -/
def literals (data : List Nat) : List (Nat × Nat) :=
  pairUp (quotePositions data)

/-- The quote indices of a list of literals, in order. -/
def quotesOf : List (Nat × Nat) → List Nat
  | [] => []
  | l :: ls => l.1 :: l.2 :: quotesOf ls

/-- The bytes strictly between the two quotes of a literal. -/
def literalBytes (data : List Nat) (l : Nat × Nat) : List Nat :=
  (data.drop (l.1 + 1)).take (l.2 - (l.1 + 1))

/-- The text of a literal, as `string(data[idx+1 : k])`. -/
def literalText (data : List Nat) (l : Nat × Nat) : String :=
  goString data (l.1 + 1) l.2

/-- A literal of exactly two bytes that read `op` without regard to case. -/
def isOpLiteral (data : List Nat) (l : Nat × Nat) : Bool :=
  match literalBytes data l with
  | [a, b] => (a == 111 || a == 79) && (b == 112 || b == 80)
  | _ => false

/-- The six operation names of the plugin protocol. -/
def opNames : List String :=
  ["Ping", "Login", "NewProxy", "NewUserConn", "NewWorkConn", "CloseProxy"]

/-- The body `{"op":"Ping","x":"y"}` as bytes. -/
def pingBody : List Nat :=
  [123, 34, 111, 112, 34, 58, 34, 80, 105, 110, 103, 34, 44,
   34, 120, 34, 58, 34, 121, 34, 125]

/-- The body `{}` as bytes. -/
def emptyObjectBody : List Nat := [123, 125]

/-- A sample `json.Unmarshal`: it decodes nothing and reports no error, and
leaves the allocated content in place. -/
def sampleUnmarshal (_data : List Nat) (schema : Schema) :
    Request × Option String :=
  ({ Version := "", Op := "",
     Content := some (match schema with
       | .PingContent => .Ping ""
       | .LoginContent => .Login ""
       | .NewUserConnContent =>
         .NewUserConn { User := "", ProxyName := "", ProxyType := "",
                        RemoteAddr := "" }
       | .NewProxyContent =>
         .NewProxy { User := "", ProxyName := "", Options := "" }
       | .CloseProxyContent => .CloseProxy ""
       | .NewWorkConnContent => .NewWorkConn "") }, none)

/-- A sample channel: enabled, model `enforced`, no static lists, empty
ledger. -/
def sampleChannel : Channel :=
  { Status := true, Model := "enforced", Secret := "S", Issuer := "frp",
    Blacklist := [], Whitelist := [],
    Allow := TsMap.empty, Block := TsMap.empty }

/-- The expiry `AddBlock` writes, as a function of the entry it finds. -/
def blockExpiry (old : Option Int) (ts step : Int) : Int :=
  match old with
  | some t =>
    if t > ts then
      if sub64 t ts < 60 then add64 t step else add64 t (mul64 step 30)
    else add64 ts step
  | none => add64 ts step

/-- A sample registry: the sample channel under the name `web`, enforce
set. -/
def sampleConfig : Config :=
  { Enforce := true, Domain := "example.org", BindAddress := ":7200",
    Channel := fun n => if n = "web" then some sampleChannel else none }

/-- A sample `net.SplitHostPort`: the text before the first colon. -/
def sampleHostOf (addr : String) : String :=
  String.mk (addr.toList.takeWhile (fun ch => ch != Char.ofNat 58))

/-- A sample TOTP validation: exactly the code `123456` is valid. -/
def sampleValidate (code _secret : String) (_now : Int) : Bool :=
  code == "123456"

/-- The block-map expiry the registry holds for `ip` in channel `name`. -/
def blockOf (cfg : Config) (name ip : String) : Option Int :=
  match cfg.Channel name with
  | some c => c.Block ip
  | none => none

/-- A sample TOTP validation that accepts no code. -/
def rejectAll (_code _secret : String) (_now : Int) : Bool := false

/-- The registry after a sequence of knocks on channel `name` from address
`addr`, each given by its code and its clock reading, in order. -/
def knockSeq (hostOf : String → String)
    (validate : String → String → Int → Bool) (name addr : String) :
    Config → List (String × Int) → Config
  | cfg, [] => cfg
  | cfg, (code, now) :: rest =>
    knockSeq hostOf validate name addr
      (WebKnock hostOf validate cfg name addr code now).cfg rest

/-! ## Sweep (`config.go`) -/

/-- Go `delete(m, k)`. -/
def TsMap.delete (m : TsMap) (k : String) : TsMap :=
  fun x => if x = k then none else m x

/-- One loop of `Channel.GC`,
`for ip, ts = range m { if ts < now { delete(m, ip) } }`, with the keys
produced in the order `keys`.  A key that is no longer in the map when its
turn comes is not produced. -/
def gcLoop (now : Int) : List String → TsMap → TsMap
  | [], m => m
  | ip :: rest, m =>
    match m ip with
    | some ts =>
      if ts < now then gcLoop now rest (m.delete ip) else gcLoop now rest m
    | none => gcLoop now rest m

/-- `Channel.GC` at clock reading `now`.  `allowKeys` and `blockKeys` are the
orders in which the two range statements produce the keys of the two maps. -/
def Channel.GC (c : Channel) (now : Int) (allowKeys blockKeys : List String) :
    Channel :=
  { c with
    Allow := gcLoop now allowKeys c.Allow
    Block := gcLoop now blockKeys c.Block }

/-- An order in which a range statement can produce the keys of a map: every
key of the map once, and nothing else. -/
def IsKeyOrder (keys : List String) (m : TsMap) : Prop :=
  keys.Nodup ∧ ∀ k, k ∈ keys ↔ m k ≠ none

/-- The entries of a map whose expiry is at least `now`. -/
def TsMap.live (m : TsMap) (now : Int) : TsMap :=
  fun k =>
    match m k with
    | some ts => if ts < now then none else some ts
    | none => none

/-- A sample channel with a ledger: two grants and two blocks, of which one
each has expired at clock reading 100. -/
def ledgerChannel : Channel :=
  { sampleChannel with
    Allow := (TsMap.empty.set "1.1.1.1" 50).set "2.2.2.2" 400
    Block := (TsMap.empty.set "3.3.3.3" 99).set "4.4.4.4" 100 }

/-! ## The handlers as steps on the registry -/

/-- `Channel.IsAllow` as a step on its receiver: the answer and the channel
afterwards.  The method takes the read lock and assigns no field. -/
def Channel.IsAllowStep (c : Channel) (ip : String) (now : Int) :
    Bool × Channel :=
  (c.IsAllow ip now, c)

/-- `Server.handleNewUserConnect` as a step on the registry: the response (or
panic) and the registry afterwards.  The channel is reached through its
pointer, so what `IsAllow` leaves of it is what the registry holds. -/
def handleNewUserConnectStep (hostOf : String → String) (cfg : Config)
    (now : Int) (req : Request) : Except String Response × Config :=
  match req.Content with
  | some (.NewUserConn content) =>
    match cfg.Channel content.ProxyName with
    | some c =>
      if c.Status then
        if c.Model = "bypass" then
          (.ok { Response.new with
                 Unchange := true, Content := some (.NewUserConn content) },
           cfg)
        else
          let ip := hostOf content.RemoteAddr
          let r := c.IsAllowStep ip now
          let cfg2 := cfg.setChannel content.ProxyName r.2
          if r.1 then
            (.ok { Response.new with
                   Unchange := true, Content := some (.NewUserConn content) },
             cfg2)
          else
            (.ok { Response.new with
                   Reject := true,
                   RejectReason := "user ip not in allow Whitelist" },
             cfg2)
      else
        (.ok { Response.new with
               Reject := true, RejectReason := "proxy is not enable" }, cfg)
    | none =>
      if cfg.Enforce then
        (.ok { Response.new with
               Reject := true, RejectReason := "proxy is not config" }, cfg)
      else
        (.ok { Response.new with
               Unchange := true, Content := some (.NewUserConn content) },
         cfg)
  | _ => (.error "interface conversion: not *plugin.NewUserConnContent", cfg)

/-- The handler table `s.h` with each handler as a step on the registry.
The handlers other than `handleNewUserConnect` call no method of a channel
and assign nothing outside their response. -/
def handlerStepFor (hostOf : String → String) (op : String) :
    Option (Config → Int → Request → Except String Response × Config) :=
  if op = "Ping" then some (fun cfg now req => (handlePing cfg now req, cfg))
  else if op = "Login" then
    some (fun cfg now req => (handleLogin cfg now req, cfg))
  else if op = "NewUserConn" then some (handleNewUserConnectStep hostOf)
  else if op = "NewProxy" then
    some (fun cfg now req => (handleNewProxy cfg now req, cfg))
  else if op = "CloseProxy" then
    some (fun cfg now req => (handleCloseProxy cfg now req, cfg))
  else if op = "NewWorkConn" then
    some (fun cfg now req => (handleNewWorkConnect cfg now req, cfg))
  else none

/-- The body `{"op":"op","x":"y"}` as bytes. -/
def opOpBody : List Nat :=
  [123, 34, 111, 112, 34, 58, 34, 111, 112, 34, 44,
   34, 120, 34, 58, 34, 121, 34, 125]

/-! ## Reference tokenizer for string boundaries -/

/-- The number of consecutive backslash bytes directly before index `k`. -/
def backslashRun (data : List Nat) : Nat → Nat
  | 0 => 0
  | k + 1 => if byteAt data k = 92 then backslashRun data k + 1 else 0

/-- Reference, in the words of the claim: index `k` holds a quote byte that is
not backslash-escaped under JSON string escaping, a quote being escaped when
it is preceded by an odd number of consecutive backslashes. -/
def jsonUnescapedQuote (data : List Nat) (k : Nat) : Bool :=
  byteAt data k == 34 && backslashRun data k % 2 == 0

/-- The string boundaries of the reference tokenizer, in increasing order. -/
def jsonQuotePositions (data : List Nat) : List Nat :=
  (List.range data.length).filter (jsonUnescapedQuote data)

/-- The string literals of the reference tokenizer. -/
def jsonLiterals (data : List Nat) : List (Nat × Nat) :=
  pairUp (jsonQuotePositions data)

/-- The body `{"a":"\\","op":"Ping"}` as bytes: the value of `a` is one
backslash, written as an escaped backslash. -/
def escapedBackslashBody : List Nat :=
  [123, 34, 97, 34, 58, 34, 92, 92, 34, 44, 34, 111, 112, 34, 58,
   34, 80, 105, 110, 103, 34, 125]

/-- The body `{"op":"Ping","op":"NewUserConn"}` as bytes. -/
def dupOpBody : List Nat :=
  [123, 34, 111, 112, 34, 58, 34, 80, 105, 110, 103, 34, 44,
   34, 111, 112, 34, 58, 34, 78, 101, 119, 85, 115, 101, 114, 67, 111, 110,
   110, 34, 125]

/-- A `json.Unmarshal` that decodes the body `dupOpBody` the way
`encoding/json` does: the two `op` members are stored into `req.Op` one after
the other, so the last one stays, and as the body has no `content` member the
content stays the empty value that was allocated.  Other bodies are decoded
as by `sampleUnmarshal`. -/
def dupOpUnmarshal (data : List Nat) (schema : Schema) :
    Request × Option String :=
  if data = dupOpBody then
    ({ (sampleUnmarshal data schema).1 with Op := "NewUserConn" }, none)
  else sampleUnmarshal data schema

/-- The sample registry with one block entry for `1.2.3.4` in channel `web`,
of expiry `e`. -/
def blockedConfig (e : Int) : Config :=
  sampleConfig.setChannel "web"
    { sampleChannel with Block := TsMap.empty.set "1.2.3.4" e }

/-! ## Basic facts -/

theorem inList_iff_mem (l : List String) (ip : String) :
    inList l ip = true ↔ ip ∈ l := by
  induction l with
  | nil => simp [inList]
  | cons v rest ih =>
    by_cases h : v = ip
    · simp [inList, h]
    · have h2 : ¬ ip = v := fun e => h e.symm
      simp [inList, h, h2, ih]

theorem wrap64_of_inInt64 {x : Int} (h : InInt64 x) : wrap64 x = x := by
  unfold InInt64 at h
  unfold wrap64
  omega

theorem TsMap.set_same (m : TsMap) (k : String) (v : Int) :
    m.set k v k = some v := by
  simp [TsMap.set]

theorem TsMap.set_other (m : TsMap) (k x : String) (v : Int) (h : x ≠ k) :
    m.set k v x = m x := by
  simp [TsMap.set, h]

theorem AddBlock_eq (c : Channel) (ip : String) (ts step : Int) :
    c.AddBlock ip ts step
      = { c with Block := c.Block.set ip (blockExpiry (c.Block ip) ts step) } := by
  unfold Channel.AddBlock blockExpiry
  cases c.Block ip with
  | none => rfl
  | some t =>
    by_cases h1 : t > ts
    · by_cases h2 : sub64 t ts < 60 <;> simp [h1, h2]
    · simp [h1]

theorem AddBlock_block_self (c : Channel) (ip : String) (ts step : Int) :
    (c.AddBlock ip ts step).Block ip
      = some (blockExpiry (c.Block ip) ts step) := by
  rw [AddBlock_eq]; simp [TsMap.set]

theorem AddBlock_block_other (c : Channel) (ip x : String) (ts step : Int)
    (h : x ≠ ip) : (c.AddBlock ip ts step).Block x = c.Block x := by
  rw [AddBlock_eq]; simp [TsMap.set, h]

/-! ## Claims about the access ledger -/

/-- C1: `IsAllow(ip)` at clock reading `now` is true exactly when ip is in the
static whitelist, or ip is not in the static blacklist, has no block-map entry
with `now < expiry`, and has an allow-map entry with `now < expiry`.  In
particular a whitelisted ip is allowed whatever the blacklist and the maps
contain. -/
theorem IsAllow_iff (c : Channel) (ip : String) (now : Int) :
    (c.IsAllow ip now = true ↔
      (ip ∈ c.Whitelist ∨
        (ip ∉ c.Blacklist ∧ (¬ ∃ e, c.Block ip = some e ∧ now < e) ∧
          ∃ e, c.Allow ip = some e ∧ now < e))) ∧
    (ip ∈ c.Whitelist → c.IsAllow ip now = true) := by
  have key : c.IsAllow ip now = true ↔
      (ip ∈ c.Whitelist ∨
        (ip ∉ c.Blacklist ∧ (¬ ∃ e, c.Block ip = some e ∧ now < e) ∧
          ∃ e, c.Allow ip = some e ∧ now < e)) := by
    unfold Channel.IsAllow
    by_cases hw : ip ∈ c.Whitelist
    · have hw2 := (inList_iff_mem c.Whitelist ip).2 hw
      simp [hw, hw2]
    · have hw2 : inList c.Whitelist ip = false := by
        cases h : inList c.Whitelist ip with
        | false => rfl
        | true => exact absurd ((inList_iff_mem _ _).1 h) hw
      by_cases hb : ip ∈ c.Blacklist
      · have hb2 := (inList_iff_mem c.Blacklist ip).2 hb
        simp [hw, hw2, hb, hb2]
      · have hb2 : inList c.Blacklist ip = false := by
          cases h : inList c.Blacklist ip with
          | false => rfl
          | true => exact absurd ((inList_iff_mem _ _).1 h) hb
        cases hB : c.Block ip with
        | none =>
          cases hA : c.Allow ip with
          | none => simp [hw, hw2, hb, hb2]
          | some a => simp [hw, hw2, hb, hb2]
        | some b =>
          by_cases hlt : now < b
          · simp [hw, hw2, hb, hb2, hlt]
          · cases hA : c.Allow ip with
            | none => simp [hw, hw2, hb, hb2, hlt]
            | some a => simp [hw, hw2, hb, hb2, hlt]
  exact ⟨key, fun hw => key.2 (Or.inl hw)⟩

/-- Witness for C1: a whitelisted ip that is also blacklisted and carries a
live block entry is allowed. -/
theorem IsAllow_iff_witness :
    ("10.0.0.1" ∈ ["10.0.0.1"]) ∧
    Channel.IsAllow
      { Status := true, Model := "", Secret := "", Issuer := "",
        Blacklist := ["10.0.0.1"], Whitelist := ["10.0.0.1"],
        Allow := TsMap.empty, Block := TsMap.empty.set "10.0.0.1" 50 }
      "10.0.0.1" 7 = true :=
  ⟨by simp, (IsAllow_iff _ "10.0.0.1" 7).2 (by simp)⟩

/-- C3: after `AddBlock(ip, now, step)` the block-map expiry of ip is
`e + step` when an entry `e > now` existed with `e - now < 60`, `e + 30*step`
when an entry `e > now` existed with `e - now >= 60`, and `now + step` when no
entry existed or the entry had `e <= now`; sums, differences and products are
the program's `int64` operations.  From no entry, `AddBlock(ip, t0, 10)` gives
`t0+10` and a following `AddBlock(ip, t0+5, 10)` gives `t0+20`, for every `t0`
for which `t0` and `t0+20` are `int64` values. -/
theorem AddBlock_expiry (c : Channel) (ip : String) (now step : Int) :
    (∀ e, c.Block ip = some e → e > now → sub64 e now < 60 →
      (c.AddBlock ip now step).Block ip = some (add64 e step)) ∧
    (∀ e, c.Block ip = some e → e > now → 60 ≤ sub64 e now →
      (c.AddBlock ip now step).Block ip = some (add64 e (mul64 step 30))) ∧
    ((c.Block ip = none ∨ ∃ e, c.Block ip = some e ∧ e ≤ now) →
      (c.AddBlock ip now step).Block ip = some (add64 now step)) ∧
    (∀ t0 : Int, InInt64 t0 → InInt64 (t0 + 20) → c.Block ip = none →
      (c.AddBlock ip t0 10).Block ip = some (t0 + 10) ∧
      ((c.AddBlock ip t0 10).AddBlock ip (add64 t0 5) 10).Block ip
        = some (t0 + 20)) := by
  refine ⟨?_, ?_, ?_, ?_⟩
  · intro e he hgt hlt
    simp [Channel.AddBlock, he, hgt, hlt, TsMap.set]
  · intro e he hgt hge
    have h : ¬ sub64 e now < 60 := by omega
    simp [Channel.AddBlock, he, hgt, h, TsMap.set]
  · rintro (hn | ⟨e, he, hle⟩)
    · simp [Channel.AddBlock, hn, TsMap.set]
    · have h : ¬ now < e := by omega
      simp [Channel.AddBlock, he, h, TsMap.set]
  · intro t0 h0 h20 hn
    unfold InInt64 at h0 h20
    have e1 : add64 t0 10 = t0 + 10 := by unfold add64 wrap64; omega
    have e2 : add64 t0 5 = t0 + 5 := by unfold add64 wrap64; omega
    have e3 : add64 (t0 + 10) 10 = t0 + 20 := by unfold add64 wrap64; omega
    have e4 : sub64 (t0 + 10) (t0 + 5) = 5 := by unfold sub64 wrap64; omega
    have first : (c.AddBlock ip t0 10).Block ip = some (t0 + 10) := by
      rw [AddBlock_block_self, hn]; simp [blockExpiry, e1]
    refine ⟨first, ?_⟩
    have hgt : t0 + 5 < t0 + 10 := by omega
    rw [AddBlock_block_self, first, e2]
    simp [blockExpiry, e3, e4, hgt]

/-- Witness for C3: the two calls of the claim with `t0 = 1000`, from an
empty ledger. -/
theorem AddBlock_expiry_witness :
    InInt64 1000 ∧ InInt64 (1000 + 20) ∧
    ((Channel.AddBlock
        { Status := true, Model := "", Secret := "", Issuer := "",
          Blacklist := [], Whitelist := [],
          Allow := TsMap.empty, Block := TsMap.empty }
        "1.2.3.4" 1000 10).Block "1.2.3.4" = some (1000 + 10) ∧
     ((Channel.AddBlock
        { Status := true, Model := "", Secret := "", Issuer := "",
          Blacklist := [], Whitelist := [],
          Allow := TsMap.empty, Block := TsMap.empty }
        "1.2.3.4" 1000 10).AddBlock "1.2.3.4" (add64 1000 5) 10).Block "1.2.3.4"
        = some (1000 + 20)) :=
  ⟨by decide, by decide,
    (AddBlock_expiry _ "1.2.3.4" 0 0).2.2.2 1000 (by decide) (by decide) rfl⟩

/-- C4, as stated, fails at the boundary: on the sample channel, after
`AddAllow(ip, 1000+300)` the clock reading `t = 1300` satisfies
`1000 <= t <= 1000+300` and `IsAllow(ip)` is false there. -/
theorem AddAllow_boundary_counterexample :
    "1.2.3.4" ∉ sampleChannel.Whitelist ∧ "1.2.3.4" ∉ sampleChannel.Blacklist ∧
    sampleChannel.Block "1.2.3.4" = none ∧
    (1000 : Int) ≤ 1300 ∧ (1300 : Int) ≤ 1000 + 300 ∧
    (sampleChannel.AddAllow "1.2.3.4" (1000 + 300)).IsAllow "1.2.3.4" 1300
      = false := by
  refine ⟨?_, ?_, rfl, by decide, by decide, ?_⟩
  · simp [sampleChannel]
  · simp [sampleChannel]
  · simp [Channel.IsAllow, Channel.AddAllow, sampleChannel, inList, TsMap.set,
      TsMap.empty]

/-- C4 (amended): for a channel in which ip is in neither static list and has
no block-map entry, after `AddAllow(ip, now+300)` `IsAllow(ip)` is true at
every clock reading `t < now+300`, in particular for `now <= t < now+300`, and
false at every clock reading `t >= now+300`. -/
theorem AddAllow_window (c : Channel) (ip : String) (now t : Int)
    (hw : ip ∉ c.Whitelist) (hb : ip ∉ c.Blacklist) (hB : c.Block ip = none) :
    (t < now + 300 → (c.AddAllow ip (now + 300)).IsAllow ip t = true) ∧
    (now + 300 ≤ t → (c.AddAllow ip (now + 300)).IsAllow ip t = false) := by
  have hw2 : inList c.Whitelist ip = false := by
    cases h : inList c.Whitelist ip with
    | false => rfl
    | true => exact absurd ((inList_iff_mem _ _).1 h) hw
  have hb2 : inList c.Blacklist ip = false := by
    cases h : inList c.Blacklist ip with
    | false => rfl
    | true => exact absurd ((inList_iff_mem _ _).1 h) hb
  constructor
  · intro h
    simp [Channel.IsAllow, Channel.AddAllow, hw2, hb2, hB, TsMap.set, h]
  · intro h
    have h2 : ¬ t < now + 300 := by omega
    simp [Channel.IsAllow, Channel.AddAllow, hw2, hb2, hB, TsMap.set, h2]

/-- Witness for C4 (amended): the sample channel, grant at `now = 1000`, read
at `t = 1299`. -/
theorem AddAllow_window_witness :
    "1.2.3.4" ∉ sampleChannel.Whitelist ∧ "1.2.3.4" ∉ sampleChannel.Blacklist ∧
    sampleChannel.Block "1.2.3.4" = none ∧ (1299 : Int) < 1000 + 300 ∧
    (sampleChannel.AddAllow "1.2.3.4" (1000 + 300)).IsAllow "1.2.3.4" 1299
      = true :=
  ⟨by simp [sampleChannel], by simp [sampleChannel], rfl, by decide,
    (AddAllow_window sampleChannel "1.2.3.4" 1000 1299
      (by simp [sampleChannel]) (by simp [sampleChannel]) rfl).1 (by decide)⟩

/-- C5: `IsBlock(ip)` returns `(0, true)` whenever ip is in the static
blacklist, whatever the block map holds; for an ip not in the blacklist it
reports blocked exactly when the block map has an entry `e` for ip with
`e > now + 60` (`int64` sum), and then the returned expiry is `e`; in every
other case it reports not blocked. -/
theorem IsBlock_spec (c : Channel) (ip : String) (now : Int) :
    (ip ∈ c.Blacklist → c.IsBlock ip now = (0, true)) ∧
    (ip ∉ c.Blacklist →
      ((c.IsBlock ip now).2 = true ↔
        ∃ e, c.Block ip = some e ∧ e > add64 now 60) ∧
      (∀ e, c.Block ip = some e → e > add64 now 60 →
        c.IsBlock ip now = (e, true)) ∧
      ((¬ ∃ e, c.Block ip = some e ∧ e > add64 now 60) →
        (c.IsBlock ip now).2 = false)) := by
  constructor
  · intro hb
    have hb2 := (inList_iff_mem c.Blacklist ip).2 hb
    simp [Channel.IsBlock, hb2]
  · intro hb
    have hb2 : inList c.Blacklist ip = false := by
      cases h : inList c.Blacklist ip with
      | false => rfl
      | true => exact absurd ((inList_iff_mem _ _).1 h) hb
    cases hB : c.Block ip with
    | none => simp [Channel.IsBlock, hb2, hB]
    | some b =>
      by_cases hlt : add64 now 60 < b
      · simp [Channel.IsBlock, hb2, hB, hlt]
      · simp [Channel.IsBlock, hb2, hB, hlt]
        omega

/-- Witness for C5: a blacklisted ip with a long-lived block entry. -/
theorem IsBlock_spec_witness :
    ("6.6.6.6" ∈ ["6.6.6.6"]) ∧
    Channel.IsBlock
      { Status := true, Model := "", Secret := "", Issuer := "",
        Blacklist := ["6.6.6.6"], Whitelist := [],
        Allow := TsMap.empty, Block := TsMap.empty.set "6.6.6.6" 5000 }
      "6.6.6.6" 7 = (0, true) :=
  ⟨by simp, (IsBlock_spec _ "6.6.6.6" 7).1 (by simp)⟩

/-! ## Claims about the handlers -/

/-- C2: for a `NewUserConn` request with proxy name `p` and remote address
`a`, `handleNewUserConnect` returns: when channel `p` exists and is enabled,
the accepting response (Reject=false, Unchange=true, Content = the request
content) if the model is `bypass`, and otherwise the accepting response
exactly when `IsAllow(host part of a)` is true, else the rejection with reason
`user ip not in allow Whitelist`; a rejection when channel `p` exists but is
disabled; and when channel `p` is missing, a rejection exactly when enforce is
set and the accepting response otherwise. -/
theorem handleNewUserConnect_spec (hostOf : String → String) (cfg : Config)
    (now : Int) (req : Request) (content : NewUserConnContent)
    (hreq : req.Content = some (.NewUserConn content)) :
    (∀ c, cfg.Channel content.ProxyName = some c → c.Status = true →
      (c.Model = "bypass" →
        handleNewUserConnect hostOf cfg now req
          = .ok { Reject := false, RejectReason := "", Unchange := true,
                  Content := some (.NewUserConn content) }) ∧
      (c.Model ≠ "bypass" →
        (c.IsAllow (hostOf content.RemoteAddr) now = true →
          handleNewUserConnect hostOf cfg now req
            = .ok { Reject := false, RejectReason := "", Unchange := true,
                    Content := some (.NewUserConn content) }) ∧
        (c.IsAllow (hostOf content.RemoteAddr) now = false →
          handleNewUserConnect hostOf cfg now req
            = .ok { Reject := true,
                    RejectReason := "user ip not in allow Whitelist",
                    Unchange := false, Content := none }))) ∧
    (∀ c, cfg.Channel content.ProxyName = some c → c.Status = false →
      ∃ r, handleNewUserConnect hostOf cfg now req = .ok r ∧
        r.Reject = true) ∧
    (cfg.Channel content.ProxyName = none →
      (cfg.Enforce = true →
        ∃ r, handleNewUserConnect hostOf cfg now req = .ok r ∧
          r.Reject = true) ∧
      (cfg.Enforce = false →
        handleNewUserConnect hostOf cfg now req
          = .ok { Reject := false, RejectReason := "", Unchange := true,
                  Content := some (.NewUserConn content) })) := by
  refine ⟨?_, ?_, ?_⟩
  · intro c hc hs
    refine ⟨?_, ?_⟩
    · intro hm
      simp [handleNewUserConnect, hreq, hc, hs, hm, Response.new]
    · intro hm
      refine ⟨?_, ?_⟩
      · intro ha
        simp [handleNewUserConnect, hreq, hc, hs, hm, ha, Response.new]
      · intro ha
        simp [handleNewUserConnect, hreq, hc, hs, hm, ha, Response.new]
  · intro c hc hs
    simp [handleNewUserConnect, hreq, hc, hs, Response.new]
  · intro hc
    refine ⟨?_, ?_⟩
    · intro he
      simp [handleNewUserConnect, hreq, hc, he, Response.new]
    · intro he
      simp [handleNewUserConnect, hreq, hc, he, Response.new]

/-- Witness for C2: on the sample registry a connection to `web` from an ip
without a grant is rejected. -/
theorem handleNewUserConnect_spec_witness :
    handleNewUserConnect sampleHostOf sampleConfig 1000
        { Version := "0.1.0", Op := "NewUserConn",
          Content := some (.NewUserConn
            { User := "", ProxyName := "web", ProxyType := "tcp",
              RemoteAddr := "1.2.3.4:5000" }) }
      = .ok { Reject := true,
              RejectReason := "user ip not in allow Whitelist",
              Unchange := false, Content := none } :=
  ((handleNewUserConnect_spec sampleHostOf sampleConfig 1000
      { Version := "0.1.0", Op := "NewUserConn",
        Content := some (.NewUserConn
          { User := "", ProxyName := "web", ProxyType := "tcp",
            RemoteAddr := "1.2.3.4:5000" }) }
      { User := "", ProxyName := "web", ProxyType := "tcp",
        RemoteAddr := "1.2.3.4:5000" } rfl).1
    sampleChannel (by simp [sampleConfig]) rfl).2
    (by simp [sampleChannel]) |>.2
    (by simp [Channel.IsAllow, sampleChannel, inList, TsMap.empty])

/-! ## Claims about the knock flow -/

/-- C6: status and ledger effect of `WebKnock` for source ip
`hostOf remoteAddr` at clock reading `now`.  Channel missing: 403 if enforce
is set, else 200, registry unchanged.  Channel present and
`IsBlock(ip) = (ts, true)` with `ts > 0`: 403 and the channel becomes
`AddBlock(ip, now, 10)` of itself.  `IsBlock(ip) = (0, true)`: 403, registry
unchanged.  Not blocked and code empty: 200, registry unchanged.  Not blocked
and code valid: 200 and the channel becomes `AddAllow(ip, now+300)` of itself.
Not blocked and code invalid: 200 and the channel becomes
`AddBlock(ip, now, 10)` of itself.  When `IsBlock` reports blocked the result
does not depend on the code or on its validation. -/
theorem WebKnock_spec (hostOf : String → String)
    (validate : String → String → Int → Bool) (cfg : Config)
    (channel remoteAddr code : String) (now : Int) :
    (cfg.Channel channel = none →
      (WebKnock hostOf validate cfg channel remoteAddr code now).status
        = (if cfg.Enforce then 403 else 200) ∧
      (WebKnock hostOf validate cfg channel remoteAddr code now).cfg = cfg) ∧
    (∀ c, cfg.Channel channel = some c →
      (∀ ts, c.IsBlock (hostOf remoteAddr) now = (ts, true) → ts > 0 →
        (WebKnock hostOf validate cfg channel remoteAddr code now).status = 403 ∧
        (WebKnock hostOf validate cfg channel remoteAddr code now).cfg
          = cfg.setChannel channel (c.AddBlock (hostOf remoteAddr) now 10)) ∧
      (c.IsBlock (hostOf remoteAddr) now = (0, true) →
        (WebKnock hostOf validate cfg channel remoteAddr code now).status = 403 ∧
        (WebKnock hostOf validate cfg channel remoteAddr code now).cfg = cfg) ∧
      ((c.IsBlock (hostOf remoteAddr) now).2 = false → code = "" →
        (WebKnock hostOf validate cfg channel remoteAddr code now).status = 200 ∧
        (WebKnock hostOf validate cfg channel remoteAddr code now).cfg = cfg) ∧
      ((c.IsBlock (hostOf remoteAddr) now).2 = false → code ≠ "" →
        c.Check validate code now = true →
        (WebKnock hostOf validate cfg channel remoteAddr code now).status = 200 ∧
        (WebKnock hostOf validate cfg channel remoteAddr code now).cfg
          = cfg.setChannel channel
              (c.AddAllow (hostOf remoteAddr) (add64 now 300))) ∧
      ((c.IsBlock (hostOf remoteAddr) now).2 = false → code ≠ "" →
        c.Check validate code now = false →
        (WebKnock hostOf validate cfg channel remoteAddr code now).status = 200 ∧
        (WebKnock hostOf validate cfg channel remoteAddr code now).cfg
          = cfg.setChannel channel (c.AddBlock (hostOf remoteAddr) now 10)) ∧
      ((c.IsBlock (hostOf remoteAddr) now).2 = true →
        ∀ (validate2 : String → String → Int → Bool) (code2 : String),
          WebKnock hostOf validate2 cfg channel remoteAddr code2 now
            = WebKnock hostOf validate cfg channel remoteAddr code now)) := by
  refine ⟨?_, ?_⟩
  · intro hc
    cases he : cfg.Enforce <;> simp [WebKnock, hc, he]
  · intro c hc
    refine ⟨?_, ?_, ?_, ?_, ?_, ?_⟩
    · intro ts hb hts
      simp [WebKnock, hc, hb, hts]
    · intro hb
      simp [WebKnock, hc, hb]
    · intro hb hcode
      rcases hbk : c.IsBlock (hostOf remoteAddr) now with ⟨ts, b⟩
      rw [hbk] at hb
      simp only at hb
      subst hb
      simp [WebKnock, hc, hbk, hcode]
    · intro hb hcode hv
      rcases hbk : c.IsBlock (hostOf remoteAddr) now with ⟨ts, b⟩
      rw [hbk] at hb
      simp only at hb
      subst hb
      simp [WebKnock, hc, hbk, hcode, hv]
    · intro hb hcode hv
      rcases hbk : c.IsBlock (hostOf remoteAddr) now with ⟨ts, b⟩
      rw [hbk] at hb
      simp only at hb
      subst hb
      simp [WebKnock, hc, hbk, hcode, hv]
    · intro hb validate2 code2
      rcases hbk : c.IsBlock (hostOf remoteAddr) now with ⟨ts, b⟩
      rw [hbk] at hb
      simp only at hb
      subst hb
      simp [WebKnock, hc, hbk]

/-- Witness for C6: on the sample registry a knock on `web` with the valid
code answers 200 and records the grant until `now+300`. -/
theorem WebKnock_spec_witness :
    (WebKnock sampleHostOf sampleValidate sampleConfig "web" "1.2.3.4:5000"
        "123456" 1000).status = 200 ∧
    (WebKnock sampleHostOf sampleValidate sampleConfig "web" "1.2.3.4:5000"
        "123456" 1000).cfg
      = sampleConfig.setChannel "web"
          (sampleChannel.AddAllow (sampleHostOf "1.2.3.4:5000")
            (add64 1000 300)) :=
  ((WebKnock_spec sampleHostOf sampleValidate sampleConfig "web"
      "1.2.3.4:5000" "123456" 1000).2 sampleChannel
      (by simp [sampleConfig])).2.2.2.1
    (by simp [Channel.IsBlock, sampleChannel, inList, TsMap.empty])
    (by decide)
    (by simp [Channel.Check, sampleValidate])

/-! ## Claims about the dispatcher -/

theorem parseRequest_no_op (jsonUnmarshal : List Nat → Schema → Request × Option String)
    (data : List Nat) (h : (scanOp data).findOp = false) :
    parseRequest jsonUnmarshal (.ok data) = (none, none) := by
  simp [parseRequest, h]

theorem HandleRPC_no_op (hostOf : String → String)
    (jsonUnmarshal : List Nat → Schema → Request × Option String)
    (cfg : Config) (now : Int) (data : List Nat)
    (h : (scanOp data).findOp = false) :
    HandleRPC hostOf jsonUnmarshal cfg now (.ok data)
      = .error "invalid memory address or nil pointer dereference" := by
  simp [HandleRPC, parseRequest_no_op jsonUnmarshal data h]

/-- C7 (the code at the failing input): on the body `{}`, in which the scan
finds no op key, `parseRequest` returns neither a request nor an error and
`HandleRPC` ends in the run-time panic of the nil dereference `req.Op`; it
builds no response, so no rejection with reason `unknown operation`. -/
theorem HandleRPC_no_op_key_panics (hostOf : String → String)
    (jsonUnmarshal : List Nat → Schema → Request × Option String)
    (cfg : Config) (now : Int) :
    literals emptyObjectBody = [] ∧
    (scanOp emptyObjectBody).findOp = false ∧
    parseRequest jsonUnmarshal (.ok emptyObjectBody) = (none, none) ∧
    HandleRPC hostOf jsonUnmarshal cfg now (.ok emptyObjectBody)
      = .error "invalid memory address or nil pointer dereference" ∧
    (∀ r : Response,
      HandleRPC hostOf jsonUnmarshal cfg now (.ok emptyObjectBody) ≠ .ok r) := by
  have h : (scanOp emptyObjectBody).findOp = false := by decide
  have hp := HandleRPC_no_op hostOf jsonUnmarshal cfg now emptyObjectBody h
  refine ⟨by decide, h, parseRequest_no_op jsonUnmarshal _ h, hp, ?_⟩
  intro r hr
  rw [hp] at hr
  cases hr

/-! ### The scan in terms of the literals -/

theorem scanLoop_filter (data : List Nat) (ks : List Nat) (st : ScanState) :
    scanLoop data ks st = scanLoop data (ks.filter (countedQuote data)) st := by
  induction ks generalizing st with
  | nil => rfl
  | cons k ks ih =>
    by_cases hq : countedQuote data k = true
    · rw [List.filter_cons_of_pos hq]
      simp only [scanLoop]
      rcases scanStep data k st with ⟨st2, b⟩
      cases b
      · exact ih st2
      · rfl
    · rw [List.filter_cons_of_neg hq]
      have hstep : scanStep data k st = (st, false) := by
        simp [scanStep, hq]
      simp only [scanLoop, hstep]
      exact ih st

theorem scanOp_eq (data : List Nat) :
    scanOp data = scanLoop data (quotePositions data)
      { cnt := 0, idx := 0, findOp := false, op := "" } := by
  unfold scanOp quotePositions
  exact scanLoop_filter data _ _

theorem scanStep_open (data : List Nat) (k : Nat) (st : ScanState)
    (hq : countedQuote data k = true) (hc : st.cnt % 2 = 0) :
    scanStep data k st = ({ st with cnt := st.cnt + 1, idx := k }, false) := by
  have h : (st.cnt + 1) % 2 = 1 := by omega
  simp [scanStep, hq, h]

theorem scanStep_close (data : List Nat) (k : Nat) (st : ScanState)
    (hq : countedQuote data k = true) (hc : st.cnt % 2 = 1) :
    scanStep data k st =
      if isOpKey data st.idx k then
        ({ st with cnt := st.cnt + 1, findOp := true }, false)
      else if st.findOp then
        ({ st with cnt := st.cnt + 1, op := goString data (st.idx + 1) k }, true)
      else ({ st with cnt := st.cnt + 1 }, false) := by
  have h : ¬ (st.cnt + 1) % 2 = 1 := by omega
  simp [scanStep, hq, h]

theorem quotesOf_append (xs ys : List (Nat × Nat)) :
    quotesOf (xs ++ ys) = quotesOf xs ++ quotesOf ys := by
  induction xs with
  | nil => rfl
  | cons x xs ih => simp [quotesOf, ih]

theorem pairUp_quotes : ∀ (n : Nat) (l : List Nat), l.length ≤ n →
    ∃ t, l = quotesOf (pairUp l) ++ t
  | 0, l, h => by
    have : l = [] := List.length_eq_zero.mp (Nat.le_zero.mp h)
    subst this
    exact ⟨[], rfl⟩
  | n + 1, l, h => by
    match l, h with
    | [], _ => exact ⟨[], rfl⟩
    | [a], _ => exact ⟨[a], rfl⟩
    | a :: b :: rest, h =>
      have hr : rest.length ≤ n := by
        simp only [List.length_cons] at h
        omega
      obtain ⟨t, ht⟩ := pairUp_quotes n rest hr
      refine ⟨t, ?_⟩
      simp only [pairUp, quotesOf, List.cons_append]
      rw [← ht]

/-- The scan over the quotes of `pre ++ key :: val :: post` followed by any
further quotes: when no literal of `pre` passes the op-key test, `key` passes
it and `val` does not, the loop stops at the closing quote of `val` with the
text of `val` as operation. -/
theorem scanLoop_literals (data : List Nat) (key val : Nat × Nat)
    (post : List (Nat × Nat)) (t : List Nat)
    (hkey : isOpKey data key.1 key.2 = true)
    (hval : isOpKey data val.1 val.2 = false)
    (hk1 : countedQuote data key.1 = true) (hk2 : countedQuote data key.2 = true)
    (hv1 : countedQuote data val.1 = true) (hv2 : countedQuote data val.2 = true) :
    ∀ (pre : List (Nat × Nat)) (st : ScanState),
      (∀ l ∈ pre, countedQuote data l.1 = true ∧ countedQuote data l.2 = true ∧
        isOpKey data l.1 l.2 = false) →
      st.cnt % 2 = 0 → st.findOp = false →
      (scanLoop data (quotesOf (pre ++ key :: val :: post) ++ t) st).findOp = true ∧
      (scanLoop data (quotesOf (pre ++ key :: val :: post) ++ t) st).op
        = goString data (val.1 + 1) val.2 := by
  intro pre
  induction pre with
  | nil =>
    intro st _ hc hf
    simp only [List.nil_append, quotesOf, List.cons_append, scanLoop]
    rw [scanStep_open data key.1 st hk1 hc]
    simp only
    rw [scanStep_close data key.2 _ hk2 (by simp only; omega)]
    simp only [hkey, if_true]
    rw [scanStep_open data val.1 _ hv1 (by simp only; omega)]
    simp only
    rw [scanStep_close data val.2 _ hv2 (by simp only; omega)]
    simp [hval]
  | cons p pre ih =>
    intro st hpre hc hf
    have hp := hpre p (List.mem_cons_self _ _)
    simp only [List.cons_append, quotesOf, scanLoop]
    rw [scanStep_open data p.1 st hp.1 hc]
    simp only
    rw [scanStep_close data p.2 _ hp.2.1 (by simp only; omega)]
    simp only [hp.2.2, hf, Bool.false_eq_true, if_false]
    exact ih _ (fun l hl => hpre l (List.mem_cons_of_mem _ hl))
      (by simp only; omega) rfl

theorem pairUp_mem : ∀ (n : Nat) (l : List Nat), l.length ≤ n →
    List.Pairwise (fun a b => a < b) l →
    ∀ p ∈ pairUp l, p.1 ∈ l ∧ p.2 ∈ l ∧ p.1 < p.2
  | 0, l, h, _, p, hp => by
    have : l = [] := List.length_eq_zero.mp (Nat.le_zero.mp h)
    subst this
    simp [pairUp] at hp
  | n + 1, l, h, hs, p, hp => by
    match l, h, hs, hp with
    | [], _, _, hp => simp [pairUp] at hp
    | [a], _, _, hp => simp [pairUp] at hp
    | a :: b :: rest, h, hs, hp =>
      have hr : rest.length ≤ n := by
        simp only [List.length_cons] at h
        omega
      simp only [pairUp, List.mem_cons] at hp
      rcases hp with hp | hp
      · subst hp
        have hab : a < b := (List.pairwise_cons.mp hs).1 b (List.mem_cons_self _ _)
        simp [hab]
      · have hs2 : List.Pairwise (fun a b => a < b) rest :=
          (List.pairwise_cons.mp (List.pairwise_cons.mp hs).2).2
        have := pairUp_mem n rest hr hs2 p hp
        exact ⟨List.mem_cons_of_mem _ (List.mem_cons_of_mem _ this.1),
          List.mem_cons_of_mem _ (List.mem_cons_of_mem _ this.2.1), this.2.2⟩

theorem mem_quotePositions (data : List Nat) (k : Nat) :
    k ∈ quotePositions data ↔ k < data.length ∧ countedQuote data k = true := by
  simp [quotePositions, List.mem_filter, List.mem_range]

/-- Every literal runs from a counted quote to a later counted quote inside
the body. -/
theorem literals_mem (data : List Nat) (l : Nat × Nat) (hl : l ∈ literals data) :
    countedQuote data l.1 = true ∧ countedQuote data l.2 = true ∧
    l.1 < l.2 ∧ l.2 < data.length := by
  have hs : List.Pairwise (fun a b => a < b) (quotePositions data) :=
    List.Pairwise.filter _ (List.pairwise_lt_range _)
  have h := pairUp_mem _ (quotePositions data) (Nat.le_refl _) hs l hl
  have h1 := (mem_quotePositions data l.1).1 h.1
  have h2 := (mem_quotePositions data l.2).1 h.2.1
  exact ⟨h1.2, h2.2, h.2.2, h2.1⟩

/-- On a literal the positional test of the loop is the test that the literal
has two bytes reading `op` without regard to case. -/
theorem isOpKey_eq_isOpLiteral (data : List Nat) (i k : Nat)
    (hik : i < k) (hk : k < data.length) :
    isOpKey data i k = isOpLiteral data (i, k) := by
  by_cases h3 : k - i = 3
  · have hk3 : k = i + 3 := by omega
    subst hk3
    have e1 : data.drop (i + 1) = data[i + 1] :: data[i + 2] :: data.drop (i + 3) := by
      rw [List.drop_eq_getElem_cons (by omega : i + 1 < data.length),
        List.drop_eq_getElem_cons (by omega : i + 1 + 1 < data.length)]
    have e2 : i + 3 - (i + 1) = 2 := by omega
    have e3 : i + 3 - 2 = i + 1 := by omega
    have e4 : i + 3 - 1 = i + 2 := by omega
    have e5 : i + 3 - i = 3 := by omega
    simp only [isOpKey, isOpLiteral, literalBytes, e1, e2, e3, e4, e5, byteAt,
      List.take_succ_cons, List.take_zero,
      List.getD_eq_getElem data 0 (by omega : i + 1 < data.length),
      List.getD_eq_getElem data 0 (by omega : i + 2 < data.length)]
    simp
  · have hlen : (literalBytes data (i, k)).length ≠ 2 := by
      simp only [literalBytes, List.length_take, List.length_drop]
      omega
    have hlit : isOpLiteral data (i, k) = false := by
      unfold isOpLiteral
      split
      · rename_i a b hab
        rw [hab] at hlen
        simp at hlen
      · rfl
    simp [isOpKey, h3, hlit]

theorem goString_length (data : List Nat) (i k : Nat) :
    (goString data i k).length ≤ k - i := by
  simp only [goString, String.length, List.length_map, List.length_take]
  omega

theorem opNames_length (v : String) (hv : v ∈ opNames) : 4 ≤ v.length := by
  simp only [opNames, List.mem_cons, List.mem_singleton, List.not_mem_nil, or_false] at hv
  rcases hv with h | h | h | h | h | h <;> subst h <;> decide

theorem opNames_schema (v : String) (hv : v ∈ opNames) :
    ∃ schema, schemaOf v = some schema := by
  simp only [opNames, List.mem_cons, List.mem_singleton, List.not_mem_nil, or_false] at hv
  rcases hv with h | h | h | h | h | h <;> subst h <;> exact ⟨_, rfl⟩

/-- The classifier on the literals as the scan itself delimits them: when the
first of them that has two bytes reading `op` is directly followed by one
whose text `v` is an operation name, the loop ends with `op = v` and
`parseRequest` decodes with the content type of `v`. -/
theorem scan_classifies_scanned_literals
    (jsonUnmarshal : List Nat → Schema → Request × Option String)
    (data : List Nat) (pre : List (Nat × Nat)) (key val : Nat × Nat)
    (post : List (Nat × Nat)) (v : String)
    (hlits : literals data = pre ++ key :: val :: post)
    (hpre : ∀ l ∈ pre, isOpLiteral data l = false)
    (hkey : isOpLiteral data key = true)
    (hval : literalText data val = v)
    (hv : v ∈ opNames) :
    (scanOp data).findOp = true ∧ (scanOp data).op = v ∧
    ∃ schema, schemaOf v = some schema ∧
      (v = "Ping" → schema = .PingContent) ∧
      (v = "Login" → schema = .LoginContent) ∧
      (v = "NewProxy" → schema = .NewProxyContent) ∧
      (v = "NewUserConn" → schema = .NewUserConnContent) ∧
      (v = "NewWorkConn" → schema = .NewWorkConnContent) ∧
      (v = "CloseProxy" → schema = .CloseProxyContent) ∧
      parseRequest jsonUnmarshal (.ok data)
        = (some (jsonUnmarshal data schema).1, (jsonUnmarshal data schema).2) := by
  have hmem : ∀ l, l ∈ pre ++ key :: val :: post → l ∈ literals data := by
    intro l hl; rw [hlits]; exact hl
  have hkm := literals_mem data key (hmem key (by simp))
  have hvm := literals_mem data val (hmem val (by simp))
  have hkey2 : isOpKey data key.1 key.2 = true := by
    rw [isOpKey_eq_isOpLiteral data key.1 key.2 hkm.2.2.1 hkm.2.2.2]
    exact hkey
  have hval2 : isOpKey data val.1 val.2 = false := by
    cases h : isOpKey data val.1 val.2 with
    | false => rfl
    | true =>
      have h3 : val.2 - val.1 = 3 := by
        simp only [isOpKey, Bool.and_eq_true, decide_eq_true_eq] at h
        exact h.1
      have hl := goString_length data (val.1 + 1) val.2
      have hv4 := opNames_length v hv
      rw [← hval] at hv4
      unfold literalText at hv4
      omega
  have hpre2 : ∀ l ∈ pre, countedQuote data l.1 = true ∧
      countedQuote data l.2 = true ∧ isOpKey data l.1 l.2 = false := by
    intro l hl
    have hm := literals_mem data l (hmem l (by simp [hl]))
    refine ⟨hm.1, hm.2.1, ?_⟩
    rw [isOpKey_eq_isOpLiteral data l.1 l.2 hm.2.2.1 hm.2.2.2]
    exact hpre l hl
  obtain ⟨t, ht⟩ := pairUp_quotes _ (quotePositions data) (Nat.le_refl _)
  have hq : quotePositions data = quotesOf (pre ++ key :: val :: post) ++ t := by
    rw [← hlits]; exact ht
  have hscan := scanLoop_literals data key val post t hkey2 hval2
    hkm.1 hkm.2.1 hvm.1 hvm.2.1 pre
    { cnt := 0, idx := 0, findOp := false, op := "" } hpre2 rfl rfl
  rw [← hq, ← scanOp_eq] at hscan
  have hop : (scanOp data).op = v := by
    rw [hscan.2]; exact hval
  obtain ⟨schema, hschema⟩ := opNames_schema v hv
  refine ⟨hscan.1, hop, schema, hschema, ?_, ?_, ?_, ?_, ?_, ?_, ?_⟩
  · intro e; subst e; simpa [schemaOf] using hschema.symm
  · intro e; subst e; simpa [schemaOf] using hschema.symm
  · intro e; subst e; simpa [schemaOf] using hschema.symm
  · intro e; subst e; simpa [schemaOf] using hschema.symm
  · intro e; subst e; simpa [schemaOf] using hschema.symm
  · intro e; subst e; simpa [schemaOf] using hschema.symm
  · simp [parseRequest, hscan.1, hop, hschema]

/-! ### Single knocks -/

theorem not_inList_of_not_mem (l : List String) (ip : String) (h : ip ∉ l) :
    inList l ip = false := by
  cases hl : inList l ip with
  | false => rfl
  | true => exact absurd ((inList_iff_mem _ _).1 hl) h

theorem setChannel_same (cfg : Config) (name : String) (c : Channel) :
    (cfg.setChannel name c).Channel name = some c := by
  simp [Config.setChannel]

theorem IsBlock_not_blocked (c : Channel) (ip : String) (now : Int)
    (hb : ip ∉ c.Blacklist)
    (h : ∀ e, c.Block ip = some e → e ≤ add64 now 60) :
    (c.IsBlock ip now).2 = false := by
  have hb2 := not_inList_of_not_mem _ _ hb
  cases hB : c.Block ip with
  | none => simp [Channel.IsBlock, hb2, hB]
  | some e =>
    have he : ¬ add64 now 60 < e := by have := h e hB; omega
    simp [Channel.IsBlock, hb2, hB, he]

theorem WebKnock_not_blocked_status (hostOf : String → String)
    (validate : String → String → Int → Bool) (cfg : Config)
    (name addr code : String) (now : Int) (c : Channel)
    (hc : cfg.Channel name = some c)
    (hnb : (c.IsBlock (hostOf addr) now).2 = false) :
    (WebKnock hostOf validate cfg name addr code now).status = 200 := by
  rcases hbk : c.IsBlock (hostOf addr) now with ⟨ts, b⟩
  rw [hbk] at hnb
  simp only at hnb
  subst hnb
  by_cases h1 : code = ""
  · simp [WebKnock, hc, hbk, h1]
  · cases h2 : c.Check validate code now <;> simp [WebKnock, hc, hbk, h1, h2]

theorem WebKnock_invalid (hostOf : String → String)
    (validate : String → String → Int → Bool) (cfg : Config)
    (name addr code : String) (now : Int) (c : Channel)
    (hc : cfg.Channel name = some c)
    (hnb : (c.IsBlock (hostOf addr) now).2 = false)
    (hcode : code ≠ "") (hv : validate code c.Secret now = false) :
    (WebKnock hostOf validate cfg name addr code now).cfg
      = cfg.setChannel name (c.AddBlock (hostOf addr) now 10) := by
  rcases hbk : c.IsBlock (hostOf addr) now with ⟨ts, b⟩
  rw [hbk] at hnb
  simp only at hnb
  subst hnb
  simp [WebKnock, hc, hbk, hcode, Channel.Check, hv]

theorem WebKnock_valid (hostOf : String → String)
    (validate : String → String → Int → Bool) (cfg : Config)
    (name addr code : String) (now : Int) (c : Channel)
    (hc : cfg.Channel name = some c)
    (hnb : (c.IsBlock (hostOf addr) now).2 = false)
    (hcode : code ≠ "") (hv : validate code c.Secret now = true) :
    (WebKnock hostOf validate cfg name addr code now).cfg
      = cfg.setChannel name (c.AddAllow (hostOf addr) (add64 now 300)) := by
  rcases hbk : c.IsBlock (hostOf addr) now with ⟨ts, b⟩
  rw [hbk] at hnb
  simp only at hnb
  subst hnb
  simp [WebKnock, hc, hbk, hcode, Channel.Check, hv]

theorem AddBlock_blacklist (c : Channel) (ip : String) (ts step : Int) :
    (c.AddBlock ip ts step).Blacklist = c.Blacklist := by
  rw [AddBlock_eq]

theorem AddBlock_secret (c : Channel) (ip : String) (ts step : Int) :
    (c.AddBlock ip ts step).Secret = c.Secret := by
  rw [AddBlock_eq]

/-- One invalid knock on a channel whose block entry for the ip, if any, does
not exceed `now + 60`: status 200 and the block entry becomes the escalated
expiry. -/
theorem invalid_knock_step (hostOf : String → String)
    (validate : String → String → Int → Bool) (cfg : Config)
    (name addr code : String) (now : Int) (c : Channel)
    (hc : cfg.Channel name = some c)
    (hb : hostOf addr ∉ c.Blacklist)
    (h : ∀ e, c.Block (hostOf addr) = some e → e ≤ add64 now 60)
    (hcode : code ≠ "") (hv : validate code c.Secret now = false) :
    (WebKnock hostOf validate cfg name addr code now).status = 200 ∧
    (WebKnock hostOf validate cfg name addr code now).cfg.Channel name
      = some (c.AddBlock (hostOf addr) now 10) ∧
    blockOf (WebKnock hostOf validate cfg name addr code now).cfg name (hostOf addr)
      = some (blockExpiry (c.Block (hostOf addr)) now 10) := by
  have hnb := IsBlock_not_blocked c (hostOf addr) now hb h
  have hcfg := WebKnock_invalid hostOf validate cfg name addr code now c hc hnb hcode hv
  refine ⟨WebKnock_not_blocked_status hostOf validate cfg name addr code now c hc hnb, ?_, ?_⟩
  · rw [hcfg, setChannel_same]
  · unfold blockOf
    rw [hcfg, setChannel_same]
    exact AddBlock_block_self c (hostOf addr) now 10

theorem blockExpiry_none (now : Int) (h1 : InInt64 now) (h2 : InInt64 (now + 60)) :
    blockExpiry none now 10 = now + 10 := by
  unfold InInt64 at h1 h2
  simp only [blockExpiry, add64, wrap64]
  omega

theorem blockExpiry_some (e now : Int) (h1 : InInt64 now)
    (h2 : InInt64 (now + 60)) (he : e ≤ now + 50) :
    blockExpiry (some e) now 10 = if now < e then e + 10 else now + 10 := by
  unfold InInt64 at h1 h2
  simp only [blockExpiry, add64, sub64, wrap64, gt_iff_lt]
  by_cases hlt : now < e
  · have hs : (e - now + 9223372036854775808) % 18446744073709551616
        - 9223372036854775808 < 60 := by omega
    simp only [hlt, hs, if_true]
    omega
  · simp only [hlt, if_false]
    omega

theorem add64_60 (now : Int) (h1 : InInt64 now) (h2 : InInt64 (now + 60)) :
    add64 now 60 = now + 60 := by
  unfold InInt64 at h1 h2
  simp only [add64, wrap64]
  omega

/-! ## End-to-end claims -/

/-- C9 (amended): from a channel with an empty ledger and an ip in neither
static list, three invalid knocks from that ip at clock readings
`t1 <= t2 <= t3` (with `t1` and `t4 + 60` in the `int64` range) all answer
200 and leave block expiries `e1 < e2 < e3` that follow the escalation rule:
`e1 = t1 + 10`, and each later knock adds 10 to the previous expiry when it
comes before that expiry and otherwise sets the knock time plus 10.  A fourth
knock at `t4 >= t3` made while the entry is unexpired (`t4 < e3`) answers
200, not 403, and extends the expiry to `e3 + 10` when its code is invalid
too. -/
theorem three_invalid_knocks (hostOf : String → String)
    (validate : String → String → Int → Bool) (cfg : Config) (c : Channel)
    (name addr code1 code2 code3 code4 : String) (t1 t2 t3 t4 : Int)
    (hc : cfg.Channel name = some c)
    (_hw : hostOf addr ∉ c.Whitelist) (hb : hostOf addr ∉ c.Blacklist)
    (_hA : c.Allow = TsMap.empty) (hB : c.Block = TsMap.empty)
    (h1 : code1 ≠ "" ∧ validate code1 c.Secret t1 = false)
    (h2 : code2 ≠ "" ∧ validate code2 c.Secret t2 = false)
    (h3 : code3 ≠ "" ∧ validate code3 c.Secret t3 = false)
    (hr : InInt64 t1 ∧ t1 ≤ t2 ∧ t2 ≤ t3 ∧ t3 ≤ t4 ∧ InInt64 (t4 + 60)) :
    ∃ e1 e2 e3 : Int,
      blockOf (knockSeq hostOf validate name addr cfg [(code1, t1)])
        name (hostOf addr) = some e1 ∧
      blockOf (knockSeq hostOf validate name addr cfg [(code1, t1), (code2, t2)])
        name (hostOf addr) = some e2 ∧
      blockOf (knockSeq hostOf validate name addr cfg
          [(code1, t1), (code2, t2), (code3, t3)])
        name (hostOf addr) = some e3 ∧
      (WebKnock hostOf validate cfg name addr code1 t1).status = 200 ∧
      (WebKnock hostOf validate
        (knockSeq hostOf validate name addr cfg [(code1, t1)])
        name addr code2 t2).status = 200 ∧
      (WebKnock hostOf validate
        (knockSeq hostOf validate name addr cfg [(code1, t1), (code2, t2)])
        name addr code3 t3).status = 200 ∧
      e1 = t1 + 10 ∧
      e2 = (if t2 < e1 then e1 + 10 else t2 + 10) ∧
      e3 = (if t3 < e2 then e2 + 10 else t3 + 10) ∧
      e1 < e2 ∧ e2 < e3 ∧
      (t4 < e3 →
        (WebKnock hostOf validate
          (knockSeq hostOf validate name addr cfg
            [(code1, t1), (code2, t2), (code3, t3)])
          name addr code4 t4).status = 200 ∧
        (code4 ≠ "" → validate code4 c.Secret t4 = false →
          blockOf (knockSeq hostOf validate name addr cfg
              [(code1, t1), (code2, t2), (code3, t3), (code4, t4)])
            name (hostOf addr) = some (e3 + 10))) := by
  obtain ⟨hr1, h12, h23, h34, hr4⟩ := hr
  have r1 : InInt64 t1 ∧ InInt64 (t1 + 60) := by
    unfold InInt64 at *; omega
  have r2 : InInt64 t2 ∧ InInt64 (t2 + 60) := by
    unfold InInt64 at *; omega
  have r3 : InInt64 t3 ∧ InInt64 (t3 + 60) := by
    unfold InInt64 at *; omega
  have r4 : InInt64 t4 ∧ InInt64 (t4 + 60) := by
    unfold InInt64 at *; omega
  -- first knock
  have hB0 : c.Block (hostOf addr) = none := by rw [hB]; rfl
  have k1 := invalid_knock_step hostOf validate cfg name addr code1 t1 c hc hb
    (by intro e he; rw [hB0] at he; cases he) h1.1 h1.2
  rw [hB0, blockExpiry_none t1 r1.1 r1.2] at k1
  -- second knock
  have hc1 := k1.2.1
  have hb1 : hostOf addr ∉ (c.AddBlock (hostOf addr) t1 10).Blacklist := by
    rw [AddBlock_blacklist]; exact hb
  have hB1 : (c.AddBlock (hostOf addr) t1 10).Block (hostOf addr) = some (t1 + 10) := by
    rw [AddBlock_block_self, hB0, blockExpiry_none t1 r1.1 r1.2]
  have k2 := invalid_knock_step hostOf validate _ name addr code2 t2 _ hc1 hb1
    (by
      intro e he
      rw [hB1] at he
      injection he with he
      rw [add64_60 t2 r2.1 r2.2]
      omega)
    h2.1 (by rw [AddBlock_secret]; exact h2.2)
  rw [hB1, blockExpiry_some (t1 + 10) t2 r2.1 r2.2 (by omega)] at k2
  -- third knock
  have hc2 := k2.2.1
  have hb2 : hostOf addr ∉
      ((c.AddBlock (hostOf addr) t1 10).AddBlock (hostOf addr) t2 10).Blacklist := by
    rw [AddBlock_blacklist]; exact hb1
  have hB2 : ((c.AddBlock (hostOf addr) t1 10).AddBlock (hostOf addr) t2 10).Block
      (hostOf addr) = some (if t2 < t1 + 10 then t1 + 10 + 10 else t2 + 10) := by
    rw [AddBlock_block_self, hB1, blockExpiry_some (t1 + 10) t2 r2.1 r2.2 (by omega)]
  have he2 : (if t2 < t1 + 10 then t1 + 10 + 10 else t2 + 10) ≤ t3 + 50 := by
    split <;> omega
  have k3 := invalid_knock_step hostOf validate _ name addr code3 t3 _ hc2 hb2
    (by
      intro e he
      rw [hB2] at he
      injection he with he
      rw [add64_60 t3 r3.1 r3.2]
      omega)
    h3.1 (by rw [AddBlock_secret, AddBlock_secret]; exact h3.2)
  rw [hB2, blockExpiry_some _ t3 r3.1 r3.2 he2] at k3
  -- the expiries
  refine ⟨t1 + 10, if t2 < t1 + 10 then t1 + 10 + 10 else t2 + 10,
    if t3 < (if t2 < t1 + 10 then t1 + 10 + 10 else t2 + 10)
      then (if t2 < t1 + 10 then t1 + 10 + 10 else t2 + 10) + 10 else t3 + 10,
    k1.2.2, k2.2.2, k3.2.2, k1.1, k2.1, k3.1, rfl, rfl, rfl, ?_, ?_, ?_⟩
  · split <;> omega
  · split <;> split <;> omega
  · intro h4
    -- fourth knock
    have hc3 := k3.2.1
    have hb3 : hostOf addr ∉
        (((c.AddBlock (hostOf addr) t1 10).AddBlock (hostOf addr) t2 10).AddBlock
          (hostOf addr) t3 10).Blacklist := by
      rw [AddBlock_blacklist]; exact hb2
    have hB3 : (((c.AddBlock (hostOf addr) t1 10).AddBlock (hostOf addr) t2 10).AddBlock
          (hostOf addr) t3 10).Block (hostOf addr)
        = some (if t3 < (if t2 < t1 + 10 then t1 + 10 + 10 else t2 + 10)
            then (if t2 < t1 + 10 then t1 + 10 + 10 else t2 + 10) + 10 else t3 + 10) := by
      rw [AddBlock_block_self, hB2, blockExpiry_some _ t3 r3.1 r3.2 he2]
    have he3 : (if t3 < (if t2 < t1 + 10 then t1 + 10 + 10 else t2 + 10)
        then (if t2 < t1 + 10 then t1 + 10 + 10 else t2 + 10) + 10 else t3 + 10)
        ≤ t4 + 50 := by
      split <;> split <;> omega
    have hle : ∀ e, (((c.AddBlock (hostOf addr) t1 10).AddBlock (hostOf addr) t2 10).AddBlock
          (hostOf addr) t3 10).Block (hostOf addr) = some e → e ≤ add64 t4 60 := by
      intro e he
      rw [hB3] at he
      injection he with he
      rw [add64_60 t4 r4.1 r4.2]
      omega
    refine ⟨?_, ?_⟩
    · exact WebKnock_not_blocked_status hostOf validate _ name addr code4 t4 _ hc3
        (IsBlock_not_blocked _ _ _ hb3 hle)
    · intro hcode hv
      have k4 := invalid_knock_step hostOf validate _ name addr code4 t4 _ hc3 hb3
        hle hcode (by rw [AddBlock_secret, AddBlock_secret, AddBlock_secret]; exact hv)
      rw [hB3, blockExpiry_some _ t4 r4.1 r4.2 he3, if_pos h4] at k4
      exact k4.2.2

/-- C9, as stated, fails.  On the sample registry, with every code invalid:
after knocks at 1000, 1003 and 1006 the block expiry is 1030; a fourth knock
at 1009, while that entry is unexpired, answers 200 and not 403.  Knocks at
1000 and 1030, within the same minute, leave expiry 1040 and not 1020.  And
at clock reading `2^63 - 8` the sum `t + 10` wraps, so that a second knock
leaves the expiry of the first unchanged. -/
theorem fourth_knock_counterexample :
    blockOf (knockSeq sampleHostOf rejectAll "web" "1.2.3.4:5000" sampleConfig
        [("000000", 1000), ("000000", 1003), ("000000", 1006)])
      "web" "1.2.3.4" = some 1030 ∧
    (1009 : Int) < 1030 ∧
    (WebKnock sampleHostOf rejectAll
      (knockSeq sampleHostOf rejectAll "web" "1.2.3.4:5000" sampleConfig
        [("000000", 1000), ("000000", 1003), ("000000", 1006)])
      "web" "1.2.3.4:5000" "000000" 1009).status = 200 ∧
    (WebKnock sampleHostOf rejectAll
      (knockSeq sampleHostOf rejectAll "web" "1.2.3.4:5000" sampleConfig
        [("000000", 1000), ("000000", 1003), ("000000", 1006)])
      "web" "1.2.3.4:5000" "000000" 1009).status ≠ 403 ∧
    blockOf (knockSeq sampleHostOf rejectAll "web" "1.2.3.4:5000" sampleConfig
        [("000000", 1000), ("000000", 1030)])
      "web" "1.2.3.4" = some 1040 ∧
    blockOf (knockSeq sampleHostOf rejectAll "web" "1.2.3.4:5000" sampleConfig
        [("000000", 9223372036854775800)])
      "web" "1.2.3.4" = some (-9223372036854775806) ∧
    blockOf (knockSeq sampleHostOf rejectAll "web" "1.2.3.4:5000" sampleConfig
        [("000000", 9223372036854775800), ("000000", 9223372036854775800)])
      "web" "1.2.3.4" = some (-9223372036854775806) := by
  refine ⟨?_, ?_, ?_, ?_, ?_, ?_, ?_⟩ <;> decide

/-- Witness for C9 (amended): the sample registry, four invalid knocks at
1000, 1003, 1006 and 1009. -/
theorem three_invalid_knocks_witness :
    ∃ e1 e2 e3 : Int,
      blockOf (knockSeq sampleHostOf rejectAll "web" "1.2.3.4:5000" sampleConfig
          [("000000", 1000), ("000000", 1003), ("000000", 1006)])
        "web" (sampleHostOf "1.2.3.4:5000") = some e3 ∧
      e1 = 1000 + 10 ∧
      e2 = (if (1003 : Int) < e1 then e1 + 10 else 1003 + 10) ∧
      e3 = (if (1006 : Int) < e2 then e2 + 10 else 1006 + 10) ∧
      e1 < e2 ∧ e2 < e3 :=
  have h := three_invalid_knocks sampleHostOf rejectAll sampleConfig
    sampleChannel "web" "1.2.3.4:5000" "000000" "000000" "000000" "000000"
    1000 1003 1006 1009 (by simp [sampleConfig]) (by simp [sampleChannel])
    (by simp [sampleChannel]) rfl rfl
    ⟨by decide, rfl⟩ ⟨by decide, rfl⟩ ⟨by decide, rfl⟩ (by decide)
  match h with
  | ⟨e1, e2, e3, _, _, h3, _, _, _, he1, he2, he3, h12, h23, _⟩ =>
    ⟨e1, e2, e3, h3, he1, he2, he3, h12, h23⟩

/-- C10: for an enabled channel with a model other than `bypass`, empty
static lists and empty dynamic maps, a `NewUserConn` for that channel whose
remote address has host ip is rejected with reason
`user ip not in allow Whitelist` (at any clock reading `t0`); and after a
knock from ip with a valid code at time `t`, every `NewUserConn` from ip at a
clock reading `t2` with `t <= t2 < t+300` (`int64` sum) is accepted with
Unchange=true and Content equal to the request content. -/
theorem knock_then_connect (hostOf : String → String)
    (validate : String → String → Int → Bool) (cfg : Config) (c : Channel)
    (name knockAddr code : String) (t t0 t2 : Int)
    (req : Request) (content : NewUserConnContent)
    (hc : cfg.Channel name = some c)
    (hs : c.Status = true) (hm : c.Model ≠ "bypass")
    (hW : c.Whitelist = []) (hBl : c.Blacklist = [])
    (hA : c.Allow = TsMap.empty) (hB : c.Block = TsMap.empty)
    (hreq : req.Content = some (.NewUserConn content))
    (hp : content.ProxyName = name)
    (hk : hostOf knockAddr = hostOf content.RemoteAddr)
    (hcode : code ≠ "") (hvalid : c.Check validate code t = true) :
    handleNewUserConnect hostOf cfg t0 req
      = .ok { Reject := true, RejectReason := "user ip not in allow Whitelist",
              Unchange := false, Content := none } ∧
    (t ≤ t2 → t2 < add64 t 300 →
      handleNewUserConnect hostOf
          (WebKnock hostOf validate cfg name knockAddr code t).cfg t2 req
        = .ok { Reject := false, RejectReason := "", Unchange := true,
                Content := some (.NewUserConn content) }) := by
  subst hp
  constructor
  · have hno : c.IsAllow (hostOf content.RemoteAddr) t0 = false := by
      simp [Channel.IsAllow, hW, hBl, hA, hB, inList, TsMap.empty]
    simp [handleNewUserConnect, hreq, hc, hs, hm, hno, Response.new]
  · intro _ hlt
    have hnb : (c.IsBlock (hostOf knockAddr) t).2 = false :=
      IsBlock_not_blocked c _ t (by simp [hBl])
        (by intro e he; rw [hB] at he; cases he)
    have hcfg := WebKnock_valid hostOf validate cfg content.ProxyName knockAddr
      code t c hc hnb hcode hvalid
    have hyes : (c.AddAllow (hostOf knockAddr) (add64 t 300)).IsAllow
        (hostOf content.RemoteAddr) t2 = true := by
      simp [Channel.IsAllow, Channel.AddAllow, hW, hBl, hB, inList,
        TsMap.empty, TsMap.set, hk, hlt]
    have hs2 : (c.AddAllow (hostOf knockAddr) (add64 t 300)).Status = true := hs
    have hm2 : (c.AddAllow (hostOf knockAddr) (add64 t 300)).Model ≠ "bypass" := hm
    simp [handleNewUserConnect, hreq, hcfg, setChannel_same, hs2, hm2, hyes,
      Response.new]

/-- Witness for C10: channel `web` of the sample registry, ip `1.2.3.4`,
knock with the valid code at 1000, connection at 1299. -/
theorem knock_then_connect_witness :
    handleNewUserConnect sampleHostOf sampleConfig 999
        { Version := "0.1.0", Op := "NewUserConn",
          Content := some (.NewUserConn
            { User := "", ProxyName := "web", ProxyType := "tcp",
              RemoteAddr := "1.2.3.4:41000" }) }
      = .ok { Reject := true, RejectReason := "user ip not in allow Whitelist",
              Unchange := false, Content := none } ∧
    handleNewUserConnect sampleHostOf
        (WebKnock sampleHostOf sampleValidate sampleConfig "web"
          "1.2.3.4:5000" "123456" 1000).cfg 1299
        { Version := "0.1.0", Op := "NewUserConn",
          Content := some (.NewUserConn
            { User := "", ProxyName := "web", ProxyType := "tcp",
              RemoteAddr := "1.2.3.4:41000" }) }
      = .ok { Reject := false, RejectReason := "", Unchange := true,
              Content := some (.NewUserConn
                { User := "", ProxyName := "web", ProxyType := "tcp",
                  RemoteAddr := "1.2.3.4:41000" }) } :=
  have h := knock_then_connect sampleHostOf sampleValidate sampleConfig
    sampleChannel "web" "1.2.3.4:5000" "123456" 1000 999 1299
    { Version := "0.1.0", Op := "NewUserConn",
      Content := some (.NewUserConn
        { User := "", ProxyName := "web", ProxyType := "tcp",
          RemoteAddr := "1.2.3.4:41000" }) }
    { User := "", ProxyName := "web", ProxyType := "tcp",
      RemoteAddr := "1.2.3.4:41000" }
    (by simp [sampleConfig]) rfl (by simp [sampleChannel]) rfl rfl rfl rfl rfl
    rfl (by decide) (by decide) (by simp [Channel.Check, sampleValidate])
  ⟨h.1, h.2 (by decide) (by decide)⟩

/-! ## Sweep -/

theorem gcLoop_apply (now : Int) (keys : List String) :
    ∀ (m : TsMap) (k : String),
      gcLoop now keys m k = if k ∈ keys then m.live now k else m k := by
  induction keys with
  | nil => intro m k; simp [gcLoop]
  | cons ip rest ih =>
    intro m k
    cases hm : m ip with
    | none =>
      simp only [gcLoop, hm]
      rw [ih m k]
      by_cases hk : k = ip
      · subst hk
        simp [TsMap.live, hm]
      · simp [hk]
    | some ts =>
      by_cases hlt : ts < now
      · simp only [gcLoop, hm, hlt, if_true]
        rw [ih (m.delete ip) k]
        by_cases hk : k = ip
        · subst hk
          simp [TsMap.live, TsMap.delete, hm, hlt]
        · simp [TsMap.live, TsMap.delete, hk]
      · simp only [gcLoop, hm, hlt, if_false]
        rw [ih m k]
        by_cases hk : k = ip
        · subst hk
          simp [TsMap.live, hm, hlt]
        · simp [hk]

theorem gcLoop_eq_live (now : Int) (keys : List String) (m : TsMap)
    (h : IsKeyOrder keys m) : gcLoop now keys m = m.live now := by
  funext k
  rw [gcLoop_apply]
  by_cases hk : k ∈ keys
  · simp [hk]
  · have hn : m k = none := by
      by_contra hne
      exact hk ((h.2 k).2 hne)
    simp [hk, TsMap.live, hn]

theorem live_eq_some (m : TsMap) (now : Int) (k : String) (e : Int) :
    m.live now k = some e ↔ m k = some e ∧ now ≤ e := by
  unfold TsMap.live
  cases hm : m k with
  | none => simp
  | some ts =>
    by_cases hlt : ts < now
    · simp only [hlt, if_true]
      constructor
      · intro h; cases h
      · rintro ⟨h1, h2⟩
        injection h1 with h1
        omega
    · simp only [hlt, if_false, Option.some.injEq]
      constructor
      · intro h; subst h; exact ⟨rfl, by omega⟩
      · rintro ⟨h1, _⟩; exact h1

/-- C11: after `Channel.GC` at sweep time `now`, for any order in which the
two range loops visit the keys, the allow map and the block map each hold
exactly the entries they held before whose expiry is `>= now`, with the same
expiry: an entry with expiry `< now` is gone and no other entry is removed or
changed.  The static lists and the other fields are untouched. -/
theorem GC_spec (c : Channel) (now : Int) (allowKeys blockKeys : List String)
    (ha : IsKeyOrder allowKeys c.Allow) (hb : IsKeyOrder blockKeys c.Block) :
    (∀ k e, (c.GC now allowKeys blockKeys).Allow k = some e ↔
      c.Allow k = some e ∧ e ≥ now) ∧
    (∀ k e, (c.GC now allowKeys blockKeys).Block k = some e ↔
      c.Block k = some e ∧ e ≥ now) ∧
    (c.GC now allowKeys blockKeys).Whitelist = c.Whitelist ∧
    (c.GC now allowKeys blockKeys).Blacklist = c.Blacklist ∧
    (c.GC now allowKeys blockKeys).Status = c.Status ∧
    (c.GC now allowKeys blockKeys).Model = c.Model ∧
    (c.GC now allowKeys blockKeys).Secret = c.Secret := by
  refine ⟨?_, ?_, rfl, rfl, rfl, rfl, rfl⟩
  · intro k e
    show gcLoop now allowKeys c.Allow k = some e ↔ _
    rw [gcLoop_eq_live now allowKeys c.Allow ha]
    exact live_eq_some c.Allow now k e
  · intro k e
    show gcLoop now blockKeys c.Block k = some e ↔ _
    rw [gcLoop_eq_live now blockKeys c.Block hb]
    exact live_eq_some c.Block now k e

theorem ledgerChannel_allowKeys :
    IsKeyOrder ["2.2.2.2", "1.1.1.1"] ledgerChannel.Allow := by
  refine ⟨by decide, ?_⟩
  intro k
  simp only [ledgerChannel, TsMap.set, TsMap.empty, List.mem_cons,
    List.mem_singleton, List.not_mem_nil, or_false]
  by_cases h1 : k = "2.2.2.2" <;> by_cases h2 : k = "1.1.1.1" <;> simp [h1, h2]

theorem ledgerChannel_blockKeys :
    IsKeyOrder ["3.3.3.3", "4.4.4.4"] ledgerChannel.Block := by
  refine ⟨by decide, ?_⟩
  intro k
  simp only [ledgerChannel, TsMap.set, TsMap.empty, List.mem_cons,
    List.mem_singleton, List.not_mem_nil, or_false]
  by_cases h1 : k = "3.3.3.3" <;> by_cases h2 : k = "4.4.4.4" <;> simp [h1, h2]

/-- Witness for C11: the sample ledger swept at 100 keeps the block entry
with expiry 100 and the grant with expiry 400. -/
theorem GC_spec_witness :
    IsKeyOrder ["2.2.2.2", "1.1.1.1"] ledgerChannel.Allow ∧
    IsKeyOrder ["3.3.3.3", "4.4.4.4"] ledgerChannel.Block ∧
    (ledgerChannel.GC 100 ["2.2.2.2", "1.1.1.1"] ["3.3.3.3", "4.4.4.4"]).Block
      "4.4.4.4" = some 100 ∧
    (ledgerChannel.GC 100 ["2.2.2.2", "1.1.1.1"] ["3.3.3.3", "4.4.4.4"]).Allow
      "2.2.2.2" = some 400 :=
  have h := GC_spec ledgerChannel 100 ["2.2.2.2", "1.1.1.1"]
    ["3.3.3.3", "4.4.4.4"] ledgerChannel_allowKeys ledgerChannel_blockKeys
  ⟨ledgerChannel_allowKeys, ledgerChannel_blockKeys,
    (h.2.1 "4.4.4.4" 100).2 ⟨by simp [ledgerChannel, TsMap.set], by decide⟩,
    (h.1 "2.2.2.2" 400).2 ⟨by simp [ledgerChannel, TsMap.set], by decide⟩⟩

/-! ## Further claims about the handlers -/

/-- C12: for a `NewProxy` request with proxy name `p`, `handleNewProxy`
rejects exactly when channel `p` exists and is disabled (with reason
`proxy is not enable`) or channel `p` is missing and enforce is set; in every
other case it returns Reject=false, Unchange=true and the request content.
The response is the same for any clock reading and for any registry with the
same enforce flag and the same presence and status of channel `p`, whatever
the ledgers hold. -/
theorem handleNewProxy_spec (cfg : Config) (now : Int) (req : Request)
    (content : NewProxyContent)
    (hreq : req.Content = some (.NewProxy content)) :
    ((∃ r, handleNewProxy cfg now req = .ok r ∧ r.Reject = true) ↔
      ((∃ c, cfg.Channel content.ProxyName = some c ∧ c.Status = false) ∨
        (cfg.Channel content.ProxyName = none ∧ cfg.Enforce = true))) ∧
    (∀ c, cfg.Channel content.ProxyName = some c → c.Status = false →
      handleNewProxy cfg now req
        = .ok { Reject := true, RejectReason := "proxy is not enable",
                Unchange := false, Content := none }) ∧
    (¬ ((∃ c, cfg.Channel content.ProxyName = some c ∧ c.Status = false) ∨
        (cfg.Channel content.ProxyName = none ∧ cfg.Enforce = true)) →
      handleNewProxy cfg now req
        = .ok { Reject := false, RejectReason := "", Unchange := true,
                Content := some (.NewProxy content) }) ∧
    (∀ (cfg2 : Config) (now2 : Int), cfg2.Enforce = cfg.Enforce →
      (cfg2.Channel content.ProxyName).map (fun c => c.Status)
        = (cfg.Channel content.ProxyName).map (fun c => c.Status) →
      handleNewProxy cfg2 now2 req = handleNewProxy cfg now req) := by
  refine ⟨?_, ?_, ?_, ?_⟩
  · cases hc : cfg.Channel content.ProxyName with
    | none =>
      cases he : cfg.Enforce <;>
        simp [handleNewProxy, hreq, hc, he, Response.new]
    | some c =>
      cases hs : c.Status <;>
        simp [handleNewProxy, hreq, hc, hs, Response.new]
  · intro c hc hs
    simp [handleNewProxy, hreq, hc, hs, Response.new]
  · intro h
    cases hc : cfg.Channel content.ProxyName with
    | none =>
      cases he : cfg.Enforce
      · simp [handleNewProxy, hreq, hc, he, Response.new]
      · exact absurd (Or.inr ⟨hc, he⟩) h
    | some c =>
      cases hs : c.Status
      · exact absurd (Or.inl ⟨c, hc, hs⟩) h
      · simp [handleNewProxy, hreq, hc, hs, Response.new]
  · intro cfg2 now2 he hm
    cases hc : cfg.Channel content.ProxyName with
    | none =>
      rw [hc] at hm
      have hc2 : cfg2.Channel content.ProxyName = none := by
        cases h2 : cfg2.Channel content.ProxyName with
        | none => rfl
        | some c2 => rw [h2] at hm; simp at hm
      simp [handleNewProxy, hreq, hc, hc2, he]
    | some c =>
      rw [hc] at hm
      cases h2 : cfg2.Channel content.ProxyName with
      | none => rw [h2] at hm; simp at hm
      | some c2 =>
        rw [h2] at hm
        have hs : c2.Status = c.Status := by simpa using hm
        simp [handleNewProxy, hreq, hc, h2, hs]

/-- Witness for C12: on the sample registry, with enforce set, a `NewProxy`
for the unknown channel `db` is rejected. -/
theorem handleNewProxy_spec_witness :
    ∃ r, handleNewProxy sampleConfig 1000
        { Version := "0.1.0", Op := "NewProxy",
          Content := some (.NewProxy
            { User := "", ProxyName := "db", Options := "" }) } = .ok r ∧
      r.Reject = true :=
  (handleNewProxy_spec sampleConfig 1000
      { Version := "0.1.0", Op := "NewProxy",
        Content := some (.NewProxy
          { User := "", ProxyName := "db", Options := "" }) }
      { User := "", ProxyName := "db", Options := "" } rfl).1.2
    (Or.inr ⟨by simp [sampleConfig], rfl⟩)

theorem setChannel_self (cfg : Config) (name : String) (c : Channel)
    (h : cfg.Channel name = some c) : cfg.setChannel name c = cfg := by
  cases cfg with
  | mk e d b ch =>
    simp only [Config.setChannel, Config.mk.injEq, true_and]
    funext n
    by_cases hn : n = name
    · subst hn; simp [← h]
    · simp [hn]

theorem handleNewUserConnectStep_frame (hostOf : String → String) (cfg : Config)
    (now : Int) (req : Request) :
    (handleNewUserConnectStep hostOf cfg now req).2 = cfg ∧
    (handleNewUserConnectStep hostOf cfg now req).1
      = handleNewUserConnect hostOf cfg now req := by
  unfold handleNewUserConnectStep handleNewUserConnect
  split
  · rename_i content hcontent
    cases hc : cfg.Channel content.ProxyName with
    | none => cases he : cfg.Enforce <;> simp
    | some c =>
      cases hs : c.Status
      · simp [hs]
      · by_cases hm : c.Model = "bypass"
        · simp [hs, hm]
        · cases ha : c.IsAllow (hostOf content.RemoteAddr) now <;>
            simp [hs, hm, Channel.IsAllowStep, ha, setChannel_self cfg _ c hc]
  · simp

/-- C13: each of the six operation handlers, taken as a step on the registry,
leaves the registry as it found it for every request, accepted, rejected or
ending in a panic: every channel keeps its allow map, block map, whitelist
and blacklist, and the response is the one the handler computes from the
registry it read.  The knock flow does write: an invalid knock on the sample
registry creates a block entry. -/
theorem handlers_frame (hostOf : String → String) :
    (∀ op ∈ opNames, ∃ h, handlerStepFor hostOf op = some h) ∧
    (∀ op h, handlerStepFor hostOf op = some h →
      ∀ (cfg : Config) (now : Int) (req : Request),
        (h cfg now req).2 = cfg ∧
        (∀ name, (h cfg now req).2.Channel name = cfg.Channel name) ∧
        (∃ f, handlerFor hostOf op = some f ∧ (h cfg now req).1 = f cfg now req)) ∧
    (blockOf sampleConfig "web" "1.2.3.4" = none ∧
      blockOf (WebKnock sampleHostOf rejectAll sampleConfig "web"
        "1.2.3.4:5000" "000000" 1000).cfg "web" "1.2.3.4" = some 1010) := by
  refine ⟨?_, ?_, ?_⟩
  · intro op hop
    simp only [opNames, List.mem_cons, List.mem_singleton, List.not_mem_nil,
      or_false] at hop
    rcases hop with h | h | h | h | h | h <;> subst h <;> exact ⟨_, rfl⟩
  · intro op h hh cfg now req
    unfold handlerStepFor at hh
    unfold handlerFor
    split_ifs at hh with h1 h2 h3 h4 h5 h6 <;> injection hh with hh <;> subst hh
    · exact ⟨rfl, fun _ => rfl, handlePing, by simp [h1], rfl⟩
    · exact ⟨rfl, fun _ => rfl, handleLogin, by simp [h1, h2], rfl⟩
    · have hf := handleNewUserConnectStep_frame hostOf cfg now req
      exact ⟨hf.1, fun _ => by rw [hf.1], handleNewUserConnect hostOf,
        by simp [h1, h2, h3], hf.2⟩
    · exact ⟨rfl, fun _ => rfl, handleNewProxy, by simp [h1, h2, h3, h4], rfl⟩
    · exact ⟨rfl, fun _ => rfl, handleCloseProxy,
        by simp [h1, h2, h3, h4, h5], rfl⟩
    · exact ⟨rfl, fun _ => rfl, handleNewWorkConnect,
        by simp [h1, h2, h3, h4, h5, h6], rfl⟩
  · constructor <;> decide

/-- Witness for C13: the `NewUserConn` step on the sample registry, for a
request that is rejected. -/
theorem handlers_frame_witness :
    handlerStepFor sampleHostOf "NewUserConn"
      = some (handleNewUserConnectStep sampleHostOf) ∧
    (handleNewUserConnectStep sampleHostOf sampleConfig 1000
        { Version := "0.1.0", Op := "NewUserConn",
          Content := some (.NewUserConn
            { User := "", ProxyName := "web", ProxyType := "tcp",
              RemoteAddr := "1.2.3.4:5000" }) }).2 = sampleConfig :=
  ⟨rfl, ((handlers_frame sampleHostOf).2.1 "NewUserConn"
      (handleNewUserConnectStep sampleHostOf) rfl sampleConfig 1000
      { Version := "0.1.0", Op := "NewUserConn",
        Content := some (.NewUserConn
          { User := "", ProxyName := "web", ProxyType := "tcp",
            RemoteAddr := "1.2.3.4:5000" }) }).1⟩

/-! ### The scan after the op key -/

theorem scanLoop_skip_plain (data : List Nat) (rest : List Nat) :
    ∀ (pre : List (Nat × Nat)) (st : ScanState),
      (∀ l ∈ pre, countedQuote data l.1 = true ∧ countedQuote data l.2 = true ∧
        isOpKey data l.1 l.2 = false) →
      st.cnt % 2 = 0 → st.findOp = false →
      ∃ st2, scanLoop data (quotesOf pre ++ rest) st = scanLoop data rest st2 ∧
        st2.cnt = st.cnt + 2 * pre.length ∧ st2.findOp = false ∧
        st2.op = st.op := by
  intro pre
  induction pre with
  | nil => intro st _ _ hf; exact ⟨st, rfl, by simp, hf, rfl⟩
  | cons p pre ih =>
    intro st hpre hc hf
    have hp := hpre p (List.mem_cons_self _ _)
    simp only [quotesOf, List.cons_append, scanLoop]
    rw [scanStep_open data p.1 st hp.1 hc]
    simp only
    rw [scanStep_close data p.2 _ hp.2.1 (by simp only; omega)]
    simp only [hp.2.2, hf, Bool.false_eq_true, if_false]
    obtain ⟨st2, h1, h2, h3, h4⟩ := ih
      { cnt := st.cnt + 1 + 1, idx := p.1, findOp := false, op := st.op }
      (fun l hl => hpre l (List.mem_cons_of_mem _ hl)) (by simp only; omega) rfl
    refine ⟨st2, h1, ?_, h3, h4⟩
    simp only [List.length_cons] at h2 ⊢
    omega

theorem scanLoop_skip_keys (data : List Nat) (rest : List Nat) :
    ∀ (keys : List (Nat × Nat)) (st : ScanState),
      (∀ l ∈ keys, countedQuote data l.1 = true ∧ countedQuote data l.2 = true ∧
        isOpKey data l.1 l.2 = true) →
      st.cnt % 2 = 0 → st.findOp = true →
      ∃ st2, scanLoop data (quotesOf keys ++ rest) st = scanLoop data rest st2 ∧
        st2.cnt = st.cnt + 2 * keys.length ∧ st2.findOp = true ∧
        st2.op = st.op := by
  intro keys
  induction keys with
  | nil => intro st _ _ hf; exact ⟨st, rfl, by simp, hf, rfl⟩
  | cons p keys ih =>
    intro st hk hc hf
    have hp := hk p (List.mem_cons_self _ _)
    simp only [quotesOf, List.cons_append, scanLoop]
    rw [scanStep_open data p.1 st hp.1 hc]
    simp only
    rw [scanStep_close data p.2 _ hp.2.1 (by simp only; omega)]
    simp only [hp.2.2, if_true]
    obtain ⟨st2, h1, h2, h3, h4⟩ := ih
      { cnt := st.cnt + 1 + 1, idx := p.1, findOp := true, op := st.op }
      (fun l hl => hk l (List.mem_cons_of_mem _ hl)) (by simp only; omega) rfl
    refine ⟨st2, h1, ?_, h3, h4⟩
    simp only [List.length_cons] at h2 ⊢
    omega

theorem scanLoop_first_key (data : List Nat) (rest : List Nat) (key : Nat × Nat)
    (st : ScanState) (hk1 : countedQuote data key.1 = true)
    (hk2 : countedQuote data key.2 = true)
    (hkey : isOpKey data key.1 key.2 = true) (hc : st.cnt % 2 = 0) :
    scanLoop data (key.1 :: key.2 :: rest) st
      = scanLoop data rest
          { cnt := st.cnt + 1 + 1, idx := key.1, findOp := true, op := st.op } := by
  simp only [scanLoop]
  rw [scanStep_open data key.1 st hk1 hc]
  simp only
  rw [scanStep_close data key.2 _ hk2 (by simp only; omega)]
  simp only [hkey, if_true]

theorem scanLoop_value (data : List Nat) (rest : List Nat) (val : Nat × Nat)
    (st : ScanState) (hv1 : countedQuote data val.1 = true)
    (hv2 : countedQuote data val.2 = true)
    (hval : isOpKey data val.1 val.2 = false) (hc : st.cnt % 2 = 0)
    (hf : st.findOp = true) :
    scanLoop data (val.1 :: val.2 :: rest) st
      = { cnt := st.cnt + 1 + 1, idx := val.1, findOp := true,
          op := goString data (val.1 + 1) val.2 } := by
  simp only [scanLoop]
  rw [scanStep_open data val.1 st hv1 hc]
  simp only
  rw [scanStep_close data val.2 _ hv2 (by simp only; omega)]
  simp [hval, hf]

/-- C14, as stated, fails: in the body `{"op":"op","x":"y"}` the first
literal is `op`, the very next closed literal is again `op`, and the scan
does not take it as the operation: it goes on and stops at the closing quote
of `x` (index 13, string opened at index 11) with `op = "x"`. -/
theorem next_literal_counterexample :
    literals opOpBody = [(1, 4), (6, 9), (11, 13), (15, 17)] ∧
    isOpLiteral opOpBody (1, 4) = true ∧
    literalText opOpBody (6, 9) = "op" ∧
    (scanOp opOpBody).op ≠ literalText opOpBody (6, 9) ∧
    scanOp opOpBody = { cnt := 6, idx := 11, findOp := true, op := "x" } := by
  refine ⟨?_, ?_, ?_, ?_, ?_⟩ <;> decide

/-- C14 (amended): once the scan has closed a two-byte literal reading `op`
in any case (`key`, the first such literal), the next closed literal that is
not itself such a literal (`val`), whatever else its content, is taken as the
operation value and the loop stops at its closing quote; literals between
them that again read `op` (`mids`) are passed over as further keys.  The
final state has `op` the text of `val`, `idx` its opening quote and `cnt` the
number of quotes up to its closing quote. -/
theorem next_plain_literal_is_op (data : List Nat)
    (pre mids post : List (Nat × Nat)) (key val : Nat × Nat)
    (hlits : literals data = pre ++ key :: (mids ++ val :: post))
    (hpre : ∀ l ∈ pre, isOpLiteral data l = false)
    (hkey : isOpLiteral data key = true)
    (hmids : ∀ l ∈ mids, isOpLiteral data l = true)
    (hval : isOpLiteral data val = false) :
    (scanOp data).findOp = true ∧
    (scanOp data).op = literalText data val ∧
    (scanOp data).idx = val.1 ∧
    (scanOp data).cnt = 2 * (pre.length + mids.length + 2) := by
  have hmem : ∀ l, l ∈ pre ++ key :: (mids ++ val :: post) → l ∈ literals data := by
    intro l hl; rw [hlits]; exact hl
  have conv : ∀ l, l ∈ literals data → ∀ b, isOpLiteral data l = b →
      countedQuote data l.1 = true ∧ countedQuote data l.2 = true ∧
        isOpKey data l.1 l.2 = b := by
    intro l hl b hb
    have hm := literals_mem data l hl
    refine ⟨hm.1, hm.2.1, ?_⟩
    rw [isOpKey_eq_isOpLiteral data l.1 l.2 hm.2.2.1 hm.2.2.2]
    exact hb
  have hk := conv key (hmem key (by simp)) true hkey
  have hv := conv val (hmem val (by simp)) false hval
  have hp : ∀ l ∈ pre, countedQuote data l.1 = true ∧
      countedQuote data l.2 = true ∧ isOpKey data l.1 l.2 = false :=
    fun l hl => conv l (hmem l (by simp [hl])) false (hpre l hl)
  have hm : ∀ l ∈ mids, countedQuote data l.1 = true ∧
      countedQuote data l.2 = true ∧ isOpKey data l.1 l.2 = true :=
    fun l hl => conv l (hmem l (by simp [hl])) true (hmids l hl)
  obtain ⟨t, ht⟩ := pairUp_quotes _ (quotePositions data) (Nat.le_refl _)
  have hq : quotePositions data
      = quotesOf pre ++ (key.1 :: key.2 ::
          (quotesOf mids ++ (val.1 :: val.2 :: (quotesOf post ++ t)))) := by
    have e : literals data = pairUp (quotePositions data) := rfl
    rw [ht, ← e, hlits]
    simp [quotesOf_append, quotesOf]
  rw [scanOp_eq, hq]
  obtain ⟨s1, e1, c1, f1, _⟩ := scanLoop_skip_plain data
    (key.1 :: key.2 :: (quotesOf mids ++ (val.1 :: val.2 :: (quotesOf post ++ t))))
    pre { cnt := 0, idx := 0, findOp := false, op := "" } hp rfl rfl
  have c1 : s1.cnt = 2 * pre.length := by simpa using c1
  rw [e1, scanLoop_first_key data _ key s1 hk.1 hk.2.1 hk.2.2 (by omega)]
  obtain ⟨s2, e2, c2, f2, _⟩ := scanLoop_skip_keys data
    (val.1 :: val.2 :: (quotesOf post ++ t)) mids
    { cnt := s1.cnt + 1 + 1, idx := key.1, findOp := true, op := s1.op }
    hm (by simp only; omega) rfl
  have c2 : s2.cnt = s1.cnt + 1 + 1 + 2 * mids.length := by simpa using c2
  rw [e2, scanLoop_value data _ val s2 hv.1 hv.2.1 hv.2.2 (by omega) f2]
  refine ⟨rfl, rfl, rfl, ?_⟩
  simp only
  omega

/-- Witness for C14 (amended): the body `{"op":"op","x":"y"}`, where the
literal `x` is the first after the key that does not read `op`. -/
theorem next_plain_literal_is_op_witness :
    literals opOpBody = [] ++ (1, 4) :: ([(6, 9)] ++ (11, 13) :: [(15, 17)]) ∧
    isOpLiteral opOpBody (1, 4) = true ∧
    isOpLiteral opOpBody (6, 9) = true ∧
    isOpLiteral opOpBody (11, 13) = false ∧
    (scanOp opOpBody).op = literalText opOpBody (11, 13) ∧
    (scanOp opOpBody).cnt = 2 * (0 + 1 + 2) :=
  have h := next_plain_literal_is_op opOpBody [] [(6, 9)] [(15, 17)]
    (1, 4) (11, 13) (by decide) (by intro l hl; cases hl) (by decide)
    (by decide) (by decide)
  ⟨by decide, by decide, by decide, by decide, h.2.1, h.2.2.2⟩

/-! ## String boundaries against JSON escaping -/

theorem backslashRun_eq_zero (data : List Nat) (k : Nat) :
    backslashRun data k = 0 ↔ ¬ (k > 0 ∧ byteAt data (k - 1) = 92) := by
  cases k with
  | zero => simp [backslashRun]
  | succ k =>
    by_cases h : byteAt data k = 92 <;> simp [backslashRun, h]

theorem countedQuote_iff (data : List Nat) (k : Nat) :
    countedQuote data k = true ↔
      byteAt data k = 34 ∧ backslashRun data k = 0 := by
  rw [backslashRun_eq_zero]
  by_cases h1 : byteAt data k = 34 <;> by_cases h2 : 0 < k <;>
    by_cases h3 : byteAt data (k - 1) = 92 <;>
    simp [countedQuote, h1, h2, h3]

theorem jsonUnescapedQuote_iff (data : List Nat) (k : Nat) :
    jsonUnescapedQuote data k = true ↔
      byteAt data k = 34 ∧ backslashRun data k % 2 = 0 := by
  simp [jsonUnescapedQuote]

/-- C15, as stated, fails: in the body `{"a":"\\","op":"Ping"}` the quote at
index 8 follows two backslashes, so it is unescaped under JSON escaping and
closes the value of `a`, but the scan does not count it.  The reference
literals are `a`, the escaped backslash, `op` and `Ping`; the scan pairs the
quotes differently and finds no op key. -/
theorem json_boundary_counterexample :
    jsonUnescapedQuote escapedBackslashBody 8 = true ∧
    countedQuote escapedBackslashBody 8 = false ∧
    jsonLiterals escapedBackslashBody = [(1, 3), (5, 8), (10, 13), (15, 20)] ∧
    literals escapedBackslashBody = [(1, 3), (5, 10), (13, 15)] ∧
    (scanOp escapedBackslashBody).findOp = false := by
  refine ⟨?_, ?_, ?_, ?_, ?_⟩ <;> decide

/-- C15 (amended): the quote bytes the scan counts as string boundaries are
exactly the quote bytes not directly preceded by a backslash byte.  They are
the quote bytes unescaped under JSON escaping at every index exactly for the
byte sequences in which no quote byte is preceded by a non-zero even number
of consecutive backslashes, and for those the literals of the scan are the
literals of the reference tokenizer. -/
theorem scan_boundaries_vs_json (data : List Nat) :
    (∀ k, countedQuote data k = true ↔
      byteAt data k = 34 ∧ ¬ (k > 0 ∧ byteAt data (k - 1) = 92)) ∧
    ((∀ k, countedQuote data k = jsonUnescapedQuote data k) ↔
      (∀ k, byteAt data k = 34 →
        backslashRun data k = 0 ∨ backslashRun data k % 2 = 1)) ∧
    ((∀ k, byteAt data k = 34 →
        backslashRun data k = 0 ∨ backslashRun data k % 2 = 1) →
      quotePositions data = jsonQuotePositions data ∧
      literals data = jsonLiterals data) := by
  have main : (∀ k, countedQuote data k = jsonUnescapedQuote data k) ↔
      (∀ k, byteAt data k = 34 →
        backslashRun data k = 0 ∨ backslashRun data k % 2 = 1) := by
    constructor
    · intro h k hq
      by_cases h0 : backslashRun data k = 0
      · exact Or.inl h0
      · right
        have hc : countedQuote data k = false := by
          cases hcq : countedQuote data k with
          | false => rfl
          | true => exact absurd ((countedQuote_iff data k).1 hcq).2 h0
        have hj : jsonUnescapedQuote data k = false := by rw [← h k]; exact hc
        have hne : ¬ backslashRun data k % 2 = 0 := by
          intro he
          have := (jsonUnescapedQuote_iff data k).2 ⟨hq, he⟩
          rw [hj] at this
          cases this
        omega
    · intro h k
      by_cases hq : byteAt data k = 34
      · have hk := h k hq
        by_cases h0 : backslashRun data k = 0
        · rw [(countedQuote_iff data k).2 ⟨hq, h0⟩,
            (jsonUnescapedQuote_iff data k).2 ⟨hq, by omega⟩]
        · have hc : countedQuote data k = false := by
            cases hcq : countedQuote data k with
            | false => rfl
            | true => exact absurd ((countedQuote_iff data k).1 hcq).2 h0
          have hj : jsonUnescapedQuote data k = false := by
            cases hjq : jsonUnescapedQuote data k with
            | false => rfl
            | true =>
              have := ((jsonUnescapedQuote_iff data k).1 hjq).2
              omega
          rw [hc, hj]
      · have hb : (byteAt data k == 34) = false := by simp [hq]
        simp [countedQuote, jsonUnescapedQuote, hb]
  refine ⟨?_, main, ?_⟩
  · intro k
    rw [countedQuote_iff, backslashRun_eq_zero]
  · intro h
    have hfun : countedQuote data = jsonUnescapedQuote data :=
      funext (main.2 h)
    have hq : quotePositions data = jsonQuotePositions data := by
      unfold quotePositions jsonQuotePositions
      rw [hfun]
    exact ⟨hq, by unfold literals jsonLiterals; rw [hq]⟩

/-- Witness for C15 (amended): in the body `{"op":"Ping","x":"y"}` no quote
follows a backslash, and the scan and the reference tokenizer find the same
four literals. -/
theorem scan_boundaries_vs_json_witness :
    (∀ k, byteAt pingBody k = 34 →
      backslashRun pingBody k = 0 ∨ backslashRun pingBody k % 2 = 1) ∧
    literals pingBody = jsonLiterals pingBody ∧
    jsonLiterals pingBody = [(1, 4), (6, 11), (13, 15), (17, 19)] :=
  have hno : ∀ k, byteAt pingBody k = 34 →
      backslashRun pingBody k = 0 ∨ backslashRun pingBody k % 2 = 1 := by
    intro k _
    left
    rw [backslashRun_eq_zero]
    rintro ⟨_, h92⟩
    have hall : ∀ j, byteAt pingBody j ≠ 92 := by
      intro j
      by_cases hj : j < 21
      · interval_cases j <;> decide
      · have : pingBody.length ≤ j := by simp [pingBody]; omega
        rw [byteAt, List.getD_eq_default _ _ this]
        decide
    exact hall _ h92
  ⟨hno, ((scan_boundaries_vs_json pingBody).2.2 hno).2, by decide⟩

/-! ## The scanned operation against the decoded operation -/

theorem HandleRPC_mismatch (hostOf : String → String)
    (jsonUnmarshal : List Nat → Schema → Request × Option String)
    (cfg : Config) (now : Int) (data : List Nat) (r : Request) (raw : String)
    (hp : parseRequest jsonUnmarshal (.ok data) = (some r, none))
    (hop : r.Op = "NewUserConn") (hc : r.Content = some (.Ping raw)) :
    HandleRPC hostOf jsonUnmarshal cfg now (.ok data)
      = .error "interface conversion: not *plugin.NewUserConnContent" := by
  simp [HandleRPC, hp, handlerFor, hop, handleNewUserConnect, hc]

/-- C16 (the code at the failing input): on the body
`{"op":"Ping","op":"NewUserConn"}` the scan yields `Ping` and `parseRequest`
allocates a ping content; the decode leaves `Op = NewUserConn`;
`parseRequest` accepts (a request and no error); `HandleRPC` selects
`handleNewUserConnect` by `req.Op`, and its type assertion on the ping content
panics.  No response is built. -/
theorem HandleRPC_scan_decode_mismatch_panics (hostOf : String → String)
    (cfg : Config) (now : Int) :
    (scanOp dupOpBody).findOp = true ∧ (scanOp dupOpBody).op = "Ping" ∧
    parseRequest dupOpUnmarshal (.ok dupOpBody)
      = (some { Version := "", Op := "NewUserConn",
                Content := some (.Ping "") }, none) ∧
    HandleRPC hostOf dupOpUnmarshal cfg now (.ok dupOpBody)
      = .error "interface conversion: not *plugin.NewUserConnContent" ∧
    (∀ r : Response,
      HandleRPC hostOf dupOpUnmarshal cfg now (.ok dupOpBody) ≠ .ok r) := by
  have hp : parseRequest dupOpUnmarshal (.ok dupOpBody)
      = (some { Version := "", Op := "NewUserConn",
                Content := some (.Ping "") }, none) := by decide
  have hh := HandleRPC_mismatch hostOf dupOpUnmarshal cfg now dupOpBody _ ""
    hp rfl rfl
  refine ⟨by decide, by decide, hp, hh, ?_⟩
  intro r hr
  rw [hh] at hr
  cases hr

/-! ## Grants against pending blocks -/

theorem AddBlock_whitelist (c : Channel) (ip : String) (ts step : Int) :
    (c.AddBlock ip ts step).Whitelist = c.Whitelist := by
  rw [AddBlock_eq]

theorem IsAllow_false_of_block (c : Channel) (ip : String) (e ts t : Int)
    (hw : ip ∉ c.Whitelist) (hB : c.Block ip = some e) (ht : t < e) :
    (c.AddAllow ip ts).IsAllow ip t = false := by
  have hw2 := not_inList_of_not_mem _ _ hw
  cases hb : inList c.Blacklist ip <;>
    simp [Channel.IsAllow, Channel.AddAllow, hw2, hb, hB, ht]

theorem WebKnock_valid_result (hostOf : String → String)
    (validate : String → String → Int → Bool) (cfg : Config)
    (name addr code : String) (now : Int) (c : Channel)
    (hc : cfg.Channel name = some c)
    (hnb : (c.IsBlock (hostOf addr) now).2 = false)
    (hcode : code ≠ "") (hv : validate code c.Secret now = true) :
    (WebKnock hostOf validate cfg name addr code now).status = 200 ∧
    (WebKnock hostOf validate cfg name addr code now).page = .verified := by
  rcases hbk : c.IsBlock (hostOf addr) now with ⟨ts, b⟩
  rw [hbk] at hnb
  simp only at hnb
  subst hnb
  simp [WebKnock, hc, hbk, hcode, Channel.Check, hv]

/-- C17: a grant does not override a pending block.  For a channel in which
ip is not whitelisted and has a block-map entry with expiry `e`, after
`AddAllow(ip, ts)` `IsAllow(ip)` is false at every clock reading before `e`.
Such a state arises in the knock flow: on an empty ledger, with ip in neither
static list, after an invalid knock at `t` a valid knock at `t2` with
`t <= t2 < t+10` (and `t`, `t2+300` in the `int64` range) is not reported
blocked by `IsBlock`, is answered with the success page, stores the grant by
`AddAllow`, and `IsAllow(ip)` at `t2` is false on the resulting channel. -/
theorem grant_does_not_override_block :
    (∀ (c : Channel) (ip : String) (e ts t : Int),
      ip ∉ c.Whitelist → c.Block ip = some e → t < e →
      (c.AddAllow ip ts).IsAllow ip t = false) ∧
    (∀ (hostOf : String → String) (validate : String → String → Int → Bool)
      (cfg : Config) (c : Channel) (name addr code1 code2 : String)
      (t t2 : Int),
      cfg.Channel name = some c →
      hostOf addr ∉ c.Whitelist → hostOf addr ∉ c.Blacklist →
      c.Allow = TsMap.empty → c.Block = TsMap.empty →
      code1 ≠ "" → validate code1 c.Secret t = false →
      code2 ≠ "" → validate code2 c.Secret t2 = true →
      InInt64 t → t ≤ t2 → t2 < t + 10 → InInt64 (t2 + 300) →
      ∃ c1,
        (WebKnock hostOf validate cfg name addr code1 t).cfg.Channel name
          = some c1 ∧
        c1.Block (hostOf addr) = some (t + 10) ∧
        (c1.IsBlock (hostOf addr) t2).2 = false ∧
        (WebKnock hostOf validate
          (WebKnock hostOf validate cfg name addr code1 t).cfg
          name addr code2 t2).status = 200 ∧
        (WebKnock hostOf validate
          (WebKnock hostOf validate cfg name addr code1 t).cfg
          name addr code2 t2).page = .verified ∧
        (WebKnock hostOf validate
          (WebKnock hostOf validate cfg name addr code1 t).cfg
          name addr code2 t2).cfg.Channel name
          = some (c1.AddAllow (hostOf addr) (add64 t2 300)) ∧
        (c1.AddAllow (hostOf addr) (add64 t2 300)).IsAllow (hostOf addr) t2
          = false) := by
  refine ⟨fun c ip e ts t hw hB ht => IsAllow_false_of_block c ip e ts t hw hB ht, ?_⟩
  intro hostOf validate cfg c name addr code1 code2 t t2 hc hw hb _ hB
    hc1 hv1 hc2 hv2 hr h12 h2 hr2
  have r1 : InInt64 t ∧ InInt64 (t + 60) := by unfold InInt64 at *; omega
  have r2 : InInt64 t2 ∧ InInt64 (t2 + 60) := by unfold InInt64 at *; omega
  have hB0 : c.Block (hostOf addr) = none := by rw [hB]; rfl
  have k1 := invalid_knock_step hostOf validate cfg name addr code1 t c hc hb
    (by intro e he; rw [hB0] at he; cases he) hc1 hv1
  have hB1 : (c.AddBlock (hostOf addr) t 10).Block (hostOf addr) = some (t + 10) := by
    rw [AddBlock_block_self, hB0, blockExpiry_none t r1.1 r1.2]
  have hb1 : hostOf addr ∉ (c.AddBlock (hostOf addr) t 10).Blacklist := by
    rw [AddBlock_blacklist]; exact hb
  have hw1 : hostOf addr ∉ (c.AddBlock (hostOf addr) t 10).Whitelist := by
    rw [AddBlock_whitelist]; exact hw
  have hnb : ((c.AddBlock (hostOf addr) t 10).IsBlock (hostOf addr) t2).2 = false :=
    IsBlock_not_blocked _ _ _ hb1 (by
      intro e he
      rw [hB1] at he
      injection he with he
      rw [add64_60 t2 r2.1 r2.2]
      omega)
  have hv2b : validate code2 (c.AddBlock (hostOf addr) t 10).Secret t2 = true := by
    rw [AddBlock_secret]; exact hv2
  have res := WebKnock_valid_result hostOf validate _ name addr code2 t2 _
    k1.2.1 hnb hc2 hv2b
  have hcfg := WebKnock_valid hostOf validate _ name addr code2 t2 _
    k1.2.1 hnb hc2 hv2b
  refine ⟨c.AddBlock (hostOf addr) t 10, k1.2.1, hB1, hnb, res.1, res.2, ?_, ?_⟩
  · rw [hcfg, setChannel_same]
  · exact IsAllow_false_of_block _ _ (t + 10) _ t2 hw1 hB1 (by omega)

/-- Witness for C17: on the sample registry, an invalid knock at 1000 and the
valid code at 1005: the grant is stored and `IsAllow` at 1005 is false. -/
theorem grant_does_not_override_block_witness :
    ∃ c1,
      (WebKnock sampleHostOf sampleValidate sampleConfig "web" "1.2.3.4:5000"
        "000000" 1000).cfg.Channel "web" = some c1 ∧
      (WebKnock sampleHostOf sampleValidate
        (WebKnock sampleHostOf sampleValidate sampleConfig "web"
          "1.2.3.4:5000" "000000" 1000).cfg
        "web" "1.2.3.4:5000" "123456" 1005).page = .verified ∧
      (c1.AddAllow (sampleHostOf "1.2.3.4:5000") (add64 1005 300)).IsAllow
        (sampleHostOf "1.2.3.4:5000") 1005 = false :=
  have h := grant_does_not_override_block.2 sampleHostOf sampleValidate
    sampleConfig sampleChannel "web" "1.2.3.4:5000" "000000" "123456"
    1000 1005 (by simp [sampleConfig]) (by simp [sampleChannel])
    (by simp [sampleChannel]) rfl rfl (by decide)
    (by simp [sampleValidate]) (by decide) (by simp [sampleValidate])
    (by decide) (by decide) (by decide) (by decide)
  match h with
  | ⟨c1, h1, _, _, _, h5, _, h7⟩ => ⟨c1, h1, h5, h7⟩

/-! ## Probing while blocked -/

theorem IsBlock_dynamic (c : Channel) (ip : String) (now ts : Int)
    (h : c.IsBlock ip now = (ts, true)) (hts : ts > 0) :
    c.Block ip = some ts ∧ add64 now 60 < ts := by
  unfold Channel.IsBlock at h
  cases hb : inList c.Blacklist ip with
  | true =>
    simp [hb] at h
    omega
  | false =>
    cases hB : c.Block ip with
    | none => simp [hb, hB] at h
    | some e =>
      by_cases hlt : add64 now 60 < e
      · simp [hb, hB, hlt] at h
        subst h
        exact ⟨rfl, hlt⟩
      · simp [hb, hB, hlt] at h

theorem WebKnock_blocked_result (hostOf : String → String)
    (validate : String → String → Int → Bool) (cfg : Config)
    (name addr code : String) (now ts : Int) (c : Channel)
    (hc : cfg.Channel name = some c)
    (hb : c.IsBlock (hostOf addr) now = (ts, true)) (hts : ts > 0) :
    WebKnock hostOf validate cfg name addr code now
      = { status := 403, page := .autoBlocked (hostOf addr) ts,
          cfg := cfg.setChannel name (c.AddBlock (hostOf addr) now 10) } := by
  simp [WebKnock, hc, hb, hts]

/-- C18: whenever `WebKnock` takes the dynamically-blocked branch at clock
reading `now` (`IsBlock(ip) = (ts, true)` with `ts > 0`, `ts` an `int64`
value), then `ts > now + 60`, the call `AddBlock(ip, now, 10)` with the same
clock reading falls in the 30x branch (`ts > now` and `ts - now >= 60`), and
the stored block expiry afterwards is `ts + 300` (the program's `int64` sum,
the exact sum whenever that is an `int64` value); the answer is 403 and the
unblock time on the page is the old `ts`, 300 seconds earlier than the expiry
the ledger then holds. -/
theorem blocked_knock_adds_300 (hostOf : String → String)
    (validate : String → String → Int → Bool) (cfg : Config) (c : Channel)
    (name addr code : String) (now ts : Int)
    (hc : cfg.Channel name = some c)
    (hb : c.IsBlock (hostOf addr) now = (ts, true)) (hts : ts > 0)
    (hclock : IsClockReading now) (hts64 : InInt64 ts) :
    ts > now + 60 ∧
    ts > now ∧ 60 ≤ sub64 ts now ∧
    (WebKnock hostOf validate cfg name addr code now).status = 403 ∧
    (WebKnock hostOf validate cfg name addr code now).page
      = .autoBlocked (hostOf addr) ts ∧
    blockOf (WebKnock hostOf validate cfg name addr code now).cfg
      name (hostOf addr) = some (add64 ts 300) ∧
    (InInt64 (ts + 300) →
      blockOf (WebKnock hostOf validate cfg name addr code now).cfg
        name (hostOf addr) = some (ts + 300)) := by
  have hnow : InInt64 now ∧ InInt64 (now + 60) := by
    unfold IsClockReading at hclock
    unfold InInt64
    omega
  have hdiff : InInt64 (ts - now) := by
    unfold IsClockReading at hclock
    unfold InInt64 at hts64 ⊢
    omega
  obtain ⟨hB, hlt⟩ := IsBlock_dynamic c (hostOf addr) now ts hb hts
  rw [add64_60 now hnow.1 hnow.2] at hlt
  have hsub : sub64 ts now = ts - now := wrap64_of_inInt64 hdiff
  have hge : 60 ≤ sub64 ts now := by rw [hsub]; omega
  have hres := WebKnock_blocked_result hostOf validate cfg name addr code now
    ts c hc hb hts
  have hmul : mul64 10 30 = 300 := by decide
  have hexp : blockExpiry (some ts) now 10 = add64 ts 300 := by
    have h1 : ts > now := by omega
    have h2 : ¬ sub64 ts now < 60 := by omega
    simp only [blockExpiry, h1, h2, if_true, if_false, hmul]
  have hstored : blockOf (WebKnock hostOf validate cfg name addr code now).cfg
      name (hostOf addr) = some (add64 ts 300) := by
    rw [hres]
    simp only [blockOf, setChannel_same]
    rw [AddBlock_block_self, hB, hexp]
  refine ⟨by omega, by omega, hge, by rw [hres], by rw [hres], hstored, ?_⟩
  intro hr
  rw [hstored]
  have : add64 ts 300 = ts + 300 := wrap64_of_inInt64 hr
  rw [this]

/-- Witness for C18: the sample registry with a block entry of expiry 2000,
probed at clock reading 1000. -/
theorem blocked_knock_adds_300_witness :
    IsClockReading 1000 ∧ InInt64 2000 ∧
    (WebKnock sampleHostOf rejectAll (blockedConfig 2000) "web" "1.2.3.4:5000"
      "000000" 1000).status = 403 ∧
    (WebKnock sampleHostOf rejectAll (blockedConfig 2000) "web" "1.2.3.4:5000"
      "000000" 1000).page = .autoBlocked (sampleHostOf "1.2.3.4:5000") 2000 ∧
    blockOf (WebKnock sampleHostOf rejectAll (blockedConfig 2000) "web"
      "1.2.3.4:5000" "000000" 1000).cfg "web" (sampleHostOf "1.2.3.4:5000")
      = some (2000 + 300) :=
  have h := blocked_knock_adds_300 sampleHostOf rejectAll (blockedConfig 2000)
    { sampleChannel with Block := TsMap.empty.set "1.2.3.4" 2000 }
    "web" "1.2.3.4:5000" "000000" 1000 2000
    (by simp [blockedConfig, Config.setChannel]) (by decide) (by decide)
    (by decide) (by decide)
  ⟨by decide, by decide, h.2.2.2.1, h.2.2.2.2.1, h.2.2.2.2.2.2 (by decide)⟩

/-! ## Sweep against access decisions -/

theorem GC_eq_live (c : Channel) (now : Int) (allowKeys blockKeys : List String)
    (ha : IsKeyOrder allowKeys c.Allow) (hb : IsKeyOrder blockKeys c.Block) :
    c.GC now allowKeys blockKeys
      = { c with Allow := c.Allow.live now, Block := c.Block.live now } := by
  unfold Channel.GC
  rw [gcLoop_eq_live now allowKeys c.Allow ha, gcLoop_eq_live now blockKeys c.Block hb]

theorem IsAllow_live (c : Channel) (now t : Int) (ip : String) (h : now ≤ t) :
    Channel.IsAllow { c with Allow := c.Allow.live now, Block := c.Block.live now }
      ip t = c.IsAllow ip t := by
  have hlive : ∀ (m : TsMap),
      (match m.live now ip with
        | some ts => decide (t < ts)
        | none => false)
      = (match m ip with
        | some ts => decide (t < ts)
        | none => false) := by
    intro m
    unfold TsMap.live
    cases hm : m ip with
    | none => rfl
    | some e =>
      by_cases hlt : e < now
      · have : ¬ t < e := by omega
        simp [hlt, this]
      · simp [hlt]
  have hB := hlive c.Block
  have hA := hlive c.Allow
  unfold Channel.IsAllow
  cases hw : inList c.Whitelist ip
  · cases hbl : inList c.Blacklist ip
    · simp only [hw, hbl, Bool.not_false, Bool.and_self, if_true]
      cases h1 : c.Block.live now ip <;> cases h2 : c.Block ip <;>
        cases h3 : c.Allow.live now ip <;> cases h4 : c.Allow ip <;>
        simp only [h1, h2, h3, h4] at hB hA ⊢ <;>
        simp_all
    · simp [hw, hbl]
  · simp [hw]

theorem IsBlock_live (c : Channel) (now t : Int) (ip : String) (h : now ≤ t)
    (hr : InInt64 (t + 60)) :
    (Channel.IsBlock { c with Allow := c.Allow.live now, Block := c.Block.live now }
      ip t).2 = (c.IsBlock ip t).2 ∧
    ((c.IsBlock ip t).2 = true →
      Channel.IsBlock { c with Allow := c.Allow.live now, Block := c.Block.live now }
        ip t = c.IsBlock ip t) := by
  have h60 : add64 t 60 = t + 60 := wrap64_of_inInt64 hr
  unfold Channel.IsBlock
  cases hbl : inList c.Blacklist ip
  · cases hB : c.Block ip with
    | none => simp [hbl, TsMap.live, hB]
    | some e =>
      by_cases hlt : e < now
      · have hn : ¬ add64 t 60 < e := by rw [h60]; omega
        simp [hbl, TsMap.live, hB, hlt, hn]
      · by_cases h2 : add64 t 60 < e <;> simp [hbl, TsMap.live, hB, hlt, h2]
  · simp [hbl]

/-- C19: sweeping is invisible to access decisions.  For every channel
state, sweep time `now`, order of the sweep loops, ip and clock reading
`t >= now`, `IsAllow(ip)` at `t` gives the same result after `Channel.GC` at
`now` as before it, and `IsBlock(ip)` at `t` gives the same blocked flag on
both, with the same expiry whenever it reports blocked: only the expiry
returned alongside blocked=false may differ. -/
theorem sweep_invisible (c : Channel) (now t : Int)
    (allowKeys blockKeys : List String) (ip : String)
    (ha : IsKeyOrder allowKeys c.Allow) (hb : IsKeyOrder blockKeys c.Block)
    (h : now ≤ t) (hclock : IsClockReading t) :
    (c.GC now allowKeys blockKeys).IsAllow ip t = c.IsAllow ip t ∧
    ((c.GC now allowKeys blockKeys).IsBlock ip t).2 = (c.IsBlock ip t).2 ∧
    ((c.IsBlock ip t).2 = true →
      (c.GC now allowKeys blockKeys).IsBlock ip t = c.IsBlock ip t) := by
  have hr : InInt64 (t + 60) := by
    unfold IsClockReading at hclock
    unfold InInt64
    omega
  rw [GC_eq_live c now allowKeys blockKeys ha hb]
  exact ⟨IsAllow_live c now t ip h, IsBlock_live c now t ip h hr⟩

/-- Witness for C19: the sample ledger swept at 100 and read at 150, for the
ip whose block entry the sweep removes. -/
theorem sweep_invisible_witness :
    IsKeyOrder ["2.2.2.2", "1.1.1.1"] ledgerChannel.Allow ∧
    IsKeyOrder ["3.3.3.3", "4.4.4.4"] ledgerChannel.Block ∧
    (100 : Int) ≤ 150 ∧ IsClockReading 150 ∧
    (ledgerChannel.GC 100 ["2.2.2.2", "1.1.1.1"] ["3.3.3.3", "4.4.4.4"]).IsAllow
      "3.3.3.3" 150 = ledgerChannel.IsAllow "3.3.3.3" 150 ∧
    ((ledgerChannel.GC 100 ["2.2.2.2", "1.1.1.1"]
        ["3.3.3.3", "4.4.4.4"]).IsBlock "3.3.3.3" 150).2
      = (ledgerChannel.IsBlock "3.3.3.3" 150).2 :=
  have h := sweep_invisible ledgerChannel 100 150 ["2.2.2.2", "1.1.1.1"]
    ["3.3.3.3", "4.4.4.4"] "3.3.3.3" ledgerChannel_allowKeys
    ledgerChannel_blockKeys (by decide) (by decide)
  ⟨ledgerChannel_allowKeys, ledgerChannel_blockKeys, by decide, by decide,
    h.1, h.2.1⟩

/-! ## Punishment never shortens a ban -/

/-- C20: for `step > 0`, when none of the sums, differences and products that
`AddBlock(ip, now, step)` computes leaves the `int64` range, the block
expiry of ip after the call is strictly greater than `now` and strictly
greater than the expiry ip had before the call, if it had one; the block
entries of every other ip and the whole allow map are unchanged. -/
theorem AddBlock_never_shortens (c : Channel) (ip : String) (now step : Int)
    (hstep : step > 0)
    (hnow : InInt64 (now + step))
    (hold : ∀ e, c.Block ip = some e →
      InInt64 (e - now) ∧ InInt64 (e + step) ∧ InInt64 (step * 30) ∧
        InInt64 (e + step * 30)) :
    (∃ e2, (c.AddBlock ip now step).Block ip = some e2 ∧ e2 > now ∧
      ∀ e, c.Block ip = some e → e2 > e) ∧
    (∀ x, x ≠ ip → (c.AddBlock ip now step).Block x = c.Block x) ∧
    (c.AddBlock ip now step).Allow = c.Allow := by
  refine ⟨?_, fun x hx => AddBlock_block_other c ip x now step hx, ?_⟩
  · refine ⟨blockExpiry (c.Block ip) now step, AddBlock_block_self c ip now step, ?_⟩
    have hns : add64 now step = now + step := wrap64_of_inInt64 hnow
    cases hB : c.Block ip with
    | none =>
      refine ⟨?_, fun e he => by cases he⟩
      simp only [blockExpiry, hns]
      omega
    | some e =>
      obtain ⟨h1, h2, h3, h4⟩ := hold e hB
      have hsub : sub64 e now = e - now := wrap64_of_inInt64 h1
      have hadd : add64 e step = e + step := wrap64_of_inInt64 h2
      have hmul : mul64 step 30 = step * 30 := wrap64_of_inInt64 h3
      have hadd30 : add64 e (step * 30) = e + step * 30 := wrap64_of_inInt64 h4
      have key : blockExpiry (some e) now step > now ∧
          blockExpiry (some e) now step > e := by
        simp only [blockExpiry, hsub, hadd, hmul, hadd30, hns]
        by_cases hgt : e > now
        · by_cases hlt : e - now < 60
          · simp only [hgt, hlt, if_true]; omega
          · simp only [hgt, hlt, if_true, if_false]; omega
        · simp only [hgt, if_false]; omega
      refine ⟨key.1, ?_⟩
      intro e' he'
      injection he' with he'
      subst he'
      exact key.2
  · rw [AddBlock_eq]

/-- Witness for C20: a block entry of expiry 2000 punished at 1000 with step
10 moves to 2300. -/
theorem AddBlock_never_shortens_witness :
    ∃ e2,
      (Channel.AddBlock
        { sampleChannel with Block := TsMap.empty.set "1.2.3.4" 2000 }
        "1.2.3.4" 1000 10).Block "1.2.3.4" = some e2 ∧
      e2 > 1000 ∧
      ∀ e, Channel.Block
          { sampleChannel with Block := TsMap.empty.set "1.2.3.4" 2000 }
          "1.2.3.4" = some e → e2 > e :=
  (AddBlock_never_shortens
    { sampleChannel with Block := TsMap.empty.set "1.2.3.4" 2000 }
    "1.2.3.4" 1000 10 (by decide) (by decide)
    (by
      intro e he
      have h2000 : e = 2000 := by
        simp [TsMap.set] at he
        exact he.symm
      subst h2000
      decide)).1

/-! ## The classifier on the string literals of the payload -/

theorem literals_eq_jsonLiterals (data : List Nat)
    (h : ∀ k, byteAt data k = 34 →
      backslashRun data k = 0 ∨ backslashRun data k % 2 = 1) :
    literals data = jsonLiterals data := by
  have hfun : countedQuote data = jsonUnescapedQuote data := by
    funext k
    rw [Bool.eq_iff_iff, countedQuote_iff, jsonUnescapedQuote_iff]
    constructor
    · rintro ⟨hq, h0⟩
      exact ⟨hq, by omega⟩
    · rintro ⟨hq, he⟩
      have := h k hq
      exact ⟨hq, by omega⟩
  unfold literals jsonLiterals quotePositions jsonQuotePositions
  rw [hfun]

theorem pingBody_plain :
    ∀ k, byteAt pingBody k = 34 →
      backslashRun pingBody k = 0 ∨ backslashRun pingBody k % 2 = 1 := by
  intro k _
  left
  rw [backslashRun_eq_zero]
  rintro ⟨_, h92⟩
  have hall : ∀ j, byteAt pingBody j ≠ 92 := by
    intro j
    by_cases hj : j < 21
    · interval_cases j <;> decide
    · have : pingBody.length ≤ j := by simp [pingBody]; omega
      rw [byteAt, List.getD_eq_default _ _ this]
      decide
  exact hall _ h92

/-- C8, as stated, fails: in the body `{"a":"\\","op":"Ping"}` the string
literals are `a`, the escaped backslash, `op` and `Ping`; the first literal
of two bytes reading `op` is the third, and it is directly followed by the
literal `Ping`, one of the six operation names.  The scan skips the quote
that closes the second literal, finds no op key, selects no content type, and
`parseRequest` returns neither a request nor an error. -/
theorem classifier_escape_counterexample :
    jsonLiterals escapedBackslashBody
      = [(1, 3), (5, 8)] ++ (10, 13) :: (15, 20) :: [] ∧
    isOpLiteral escapedBackslashBody (1, 3) = false ∧
    isOpLiteral escapedBackslashBody (5, 8) = false ∧
    isOpLiteral escapedBackslashBody (10, 13) = true ∧
    literalText escapedBackslashBody (15, 20) = "Ping" ∧
    "Ping" ∈ opNames ∧
    (scanOp escapedBackslashBody).findOp = false ∧
    (scanOp escapedBackslashBody).op ≠ "Ping" ∧
    parseRequest sampleUnmarshal (.ok escapedBackslashBody) = (none, none) := by
  refine ⟨?_, ?_, ?_, ?_, ?_, ?_, ?_, ?_, ?_⟩ <;> decide

/-- C8 (amended): for a payload in which no quote byte is preceded by a
non-zero even number of consecutive backslashes, when the first closed string
literal of two bytes reading `op` (in any case) is directly followed by a
closed string literal whose text `v` is one of the six operation names, the
scanning loop of `parseRequest` ends with `findOp` set and `op = v`, and
`parseRequest` hands the body to the decode with the content type of `v` and
returns what the decode returns.  The string literals are those of the
reference tokenizer, which follows JSON escaping. -/
theorem parseRequest_classifies
    (jsonUnmarshal : List Nat → Schema → Request × Option String)
    (data : List Nat) (pre : List (Nat × Nat)) (key val : Nat × Nat)
    (post : List (Nat × Nat)) (v : String)
    (hplain : ∀ k, byteAt data k = 34 →
      backslashRun data k = 0 ∨ backslashRun data k % 2 = 1)
    (hlits : jsonLiterals data = pre ++ key :: val :: post)
    (hpre : ∀ l ∈ pre, isOpLiteral data l = false)
    (hkey : isOpLiteral data key = true)
    (hval : literalText data val = v)
    (hv : v ∈ opNames) :
    (scanOp data).findOp = true ∧ (scanOp data).op = v ∧
    ∃ schema, schemaOf v = some schema ∧
      (v = "Ping" → schema = .PingContent) ∧
      (v = "Login" → schema = .LoginContent) ∧
      (v = "NewProxy" → schema = .NewProxyContent) ∧
      (v = "NewUserConn" → schema = .NewUserConnContent) ∧
      (v = "NewWorkConn" → schema = .NewWorkConnContent) ∧
      (v = "CloseProxy" → schema = .CloseProxyContent) ∧
      parseRequest jsonUnmarshal (.ok data)
        = (some (jsonUnmarshal data schema).1, (jsonUnmarshal data schema).2) := by
  have hscanned : literals data = pre ++ key :: val :: post := by
    rw [literals_eq_jsonLiterals data hplain]
    exact hlits
  exact scan_classifies_scanned_literals jsonUnmarshal data pre key val post v
    hscanned hpre hkey hval hv

/-- Witness for C8 (amended): the body `{"op":"Ping","x":"y"}`.  It holds no
backslash; its literals are `op`, `Ping`, `x` and `y`; the scan yields
`Ping` and the decode is given a ping content. -/
theorem parseRequest_classifies_witness :
    (∀ k, byteAt pingBody k = 34 →
      backslashRun pingBody k = 0 ∨ backslashRun pingBody k % 2 = 1) ∧
    jsonLiterals pingBody = [] ++ (1, 4) :: (6, 11) :: [(13, 15), (17, 19)] ∧
    isOpLiteral pingBody (1, 4) = true ∧
    literalText pingBody (6, 11) = "Ping" ∧
    "Ping" ∈ opNames ∧
    (scanOp pingBody).findOp = true ∧ (scanOp pingBody).op = "Ping" ∧
    schemaOf "Ping" = some .PingContent :=
  have h := parseRequest_classifies sampleUnmarshal pingBody []
    (1, 4) (6, 11) [(13, 15), (17, 19)] "Ping" pingBody_plain (by decide)
    (by intro l hl; cases hl) (by decide) (by decide) (by decide)
  ⟨pingBody_plain, by decide, by decide, by decide, by decide, h.1, h.2.1,
    by decide⟩

end FrpOtp
